import Mathlib

/-!
# Verification of the content-quality gate and HTML→Lexical converter

Shallow embedding of the core logic of the `ignition_automation` repository:

* `src/utils/contentValidator.js` — the `ContentValidator` class
  (`validatePost` and its sub-validators and counting helpers);
* `src/services/ghostAPI.js` — the `htmlToLexical` conversion pipeline
  (`parseHTMLBlocks`, `convertBlockToLexical`, `parseInlineContent`,
  `extractListItems`, `extractTextContent`).

Strings are modelled as `List Char` (the JavaScript inputs relevant here are
ASCII, where JS UTF-16 code units coincide with characters).  The JavaScript
regular-expression scans are embedded as explicit recursive scanners that
reproduce the leftmost-match / alternation-order / greedy-vs-lazy behaviour
of the concrete regular expressions appearing in the source.
-/

namespace IgnitionAutomation

abbrev Str := List Char

/-- Convert a Lean string literal to the `List Char` model. -/
def s2l (s : String) : Str := s.data

/-- JavaScript `\s` on the ASCII range: space, tab, LF, VT, FF, CR. -/
def isWs (c : Char) : Bool :=
  c = ' ' || c = '\t' || c = '\n' || c = '\x0b' || c = '\x0c' || c = '\r'

/-- JavaScript `\w`: ASCII letters, digits and underscore. -/
def isWordChar (c : Char) : Bool :=
  ('a' ≤ c && c ≤ 'z') || ('A' ≤ c && c ≤ 'Z') || ('0' ≤ c && c ≤ '9') || c = '_'

/-- ASCII decimal digit. -/
def isDigit (c : Char) : Bool := '0' ≤ c && c ≤ '9'

/-- Case-insensitive character comparison (JS `/i` flag, ASCII range). -/
def ciEq (a b : Char) : Bool := a.toLower = b.toLower

/-- Case-insensitive prefix test. -/
def ciIsPrefix : Str → Str → Bool
  | [], _ => true
  | _ :: _, [] => false
  | p :: ps, c :: cs => ciEq p c && ciIsPrefix ps cs

/-- Case-sensitive prefix test. -/
def litIsPrefix : Str → Str → Bool
  | [], _ => true
  | _ :: _, [] => false
  | p :: ps, c :: cs => (p = c) && litIsPrefix ps cs

/-- Drop a case-insensitive prefix, returning the remainder on success. -/
def dropCiPrefix? (pat s : Str) : Option Str :=
  match pat, s with
  | [], s => some s
  | _ :: _, [] => none
  | p :: ps, c :: cs => if ciEq p c then dropCiPrefix? ps cs else none

/-- Drop a case-sensitive prefix, returning the remainder on success. -/
def dropLitPrefix? (pat s : Str) : Option Str :=
  match pat, s with
  | [], s => some s
  | _ :: _, [] => none
  | p :: ps, c :: cs => if p = c then dropLitPrefix? ps cs else none

/-- Split at the first case-insensitive occurrence of `pat`:
returns `(before, after-the-occurrence)`. -/
def splitAtFirstCi (pat : Str) : Str → Option (Str × Str)
  | [] => (dropCiPrefix? pat []).map (fun r => ([], r))
  | c :: s' =>
    match dropCiPrefix? pat (c :: s') with
    | some rest => some ([], rest)
    | none => (splitAtFirstCi pat s').map (fun p => (c :: p.1, p.2))

/-- Case-insensitive substring test (JS `/pat/i.test(s)` for a literal `pat`). -/
def ciContains (s pat : Str) : Bool :=
  match s with
  | [] => ciIsPrefix pat []
  | _ :: s' => ciIsPrefix pat s || ciContains s' pat

/-- Case-sensitive substring test (JS `String.prototype.includes`). -/
def litContains (s pat : Str) : Bool :=
  match s with
  | [] => litIsPrefix pat []
  | _ :: s' => litIsPrefix pat s || litContains s' pat

/-- ASCII lower-casing of a string (JS `toLowerCase` on ASCII). -/
def lcStr (s : Str) : Str := s.map Char.toLower

/-- JS `String.prototype.trim`: strip whitespace from both ends. -/
def jsTrim (s : Str) : Str :=
  ((s.dropWhile isWs).reverse.dropWhile isWs).reverse

theorem dropLitPrefix?_length {pat s r : Str} (h : dropLitPrefix? pat s = some r) :
    r.length + pat.length = s.length := by
  induction pat generalizing s with
  | nil => simp [dropLitPrefix?] at h; simp [h]
  | cons p ps ih =>
    cases s with
    | nil => simp [dropLitPrefix?] at h
    | cons c cs =>
      simp only [dropLitPrefix?] at h
      split at h
      · have := ih h; simp only [List.length_cons]; omega
      · exact absurd h (by simp)

theorem dropCiPrefix?_length {pat s r : Str} (h : dropCiPrefix? pat s = some r) :
    r.length + pat.length = s.length := by
  induction pat generalizing s with
  | nil => simp [dropCiPrefix?] at h; simp [h]
  | cons p ps ih =>
    cases s with
    | nil => simp [dropCiPrefix?] at h
    | cons c cs =>
      simp only [dropCiPrefix?] at h
      split at h
      · have := ih h; simp only [List.length_cons]; omega
      · exact absurd h (by simp)

/-- Count non-overlapping leftmost occurrences of a literal pattern
(JS `s.match(/pat/g).length` for a metacharacter-free pattern, case-sensitive). -/
def countLitOccsGo (pat : Str) : Nat → Str → Nat
  | 0, _ => 0
  | fuel + 1, s =>
    match dropLitPrefix? pat s with
    | some rest =>
      if pat = [] then 0   -- never used with an empty pattern
      else countLitOccsGo pat fuel rest + 1
    | none =>
      match s with
      | [] => 0
      | _ :: s' => countLitOccsGo pat fuel s'

def countLitOccs (pat : Str) (s : Str) : Nat :=
  countLitOccsGo pat (s.length + 1) s

theorem length_dropWhile_le {α : Type} (p : α → Bool) (l : List α) :
    (l.dropWhile p).length ≤ l.length := by
  induction l with
  | nil => simp
  | cons c cs ih =>
    by_cases h : p c <;> simp [List.dropWhile_cons, h] <;> omega

/-- Match the regex `<br\s*\/?>` (flags `gi`) at the head of `s`; on success
return the remainder after the match. -/
def brMatch? (s : Str) : Option Str :=
  (dropCiPrefix? (s2l "<br") s).bind fun rest =>
    match rest.dropWhile isWs with
    | '/' :: '>' :: cont => some cont
    | '>' :: cont => some cont
    | _ => none

theorem brMatch?_length {s cont : Str} (h : brMatch? s = some cont) :
    cont.length < s.length := by
  unfold brMatch? at h
  cases hd : dropCiPrefix? (s2l "<br") s with
  | none => rw [hd] at h; simp at h
  | some rest =>
    rw [hd] at h
    have h1 := dropCiPrefix?_length hd
    have h2 : (rest.dropWhile isWs).length ≤ rest.length := length_dropWhile_le isWs rest
    simp only [Option.some_bind] at h
    split at h <;> simp_all <;> omega

/-- Global replacement of `<br\s*\/?>` by a newline
(the first step of `extractTextContent`). -/
def brReplaceGo : Nat → Str → Str
  | 0, _ => []
  | fuel + 1, s =>
    match brMatch? s with
    | some cont => '\n' :: brReplaceGo fuel cont
    | none =>
      match s with
      | [] => []
      | c :: s' => c :: brReplaceGo fuel s'

def brReplace (s : Str) : Str := brReplaceGo (s.length + 1) s

/-- Match the regex `<[^>]*>` at the head of `s`; on success return the
remainder after the closing `>`. -/
def tagMatch? (s : Str) : Option Str :=
  match s with
  | '<' :: rest =>
    match rest.dropWhile (fun c => !(c = '>')) with
    | '>' :: cont => some cont
    | _ => none
  | _ => none

theorem tagMatch?_length {s cont : Str} (h : tagMatch? s = some cont) :
    cont.length < s.length := by
  unfold tagMatch? at h
  split at h
  · rename_i rest
    have h2 : (rest.dropWhile (fun c => !(c = '>'))).length ≤ rest.length :=
      length_dropWhile_le _ rest
    split at h <;> simp_all
    omega
  · simp at h

/-- Global deletion of `<[^>]*>` matches (tag stripping,
the second step of `extractTextContent`). -/
def stripTagsGo : Nat → Str → Str
  | 0, _ => []
  | fuel + 1, s =>
    match tagMatch? s with
    | some cont => stripTagsGo fuel cont
    | none =>
      match s with
      | [] => []
      | c :: s' => c :: stripTagsGo fuel s'

def stripTags (s : Str) : Str := stripTagsGo (s.length + 1) s

/-- Global literal replacement: JS `s.replace(/pat/g, rep)` for a
metacharacter-free `pat` (case-sensitive). -/
def replaceLitGo (pat rep : Str) : Nat → Str → Str
  | 0, s => s
  | fuel + 1, s =>
    match dropLitPrefix? pat s with
    | some rest =>
      if pat = [] then s  -- never used with an empty pattern
      else rep ++ replaceLitGo pat rep fuel rest
    | none =>
      match s with
      | [] => []
      | c :: s' => c :: replaceLitGo pat rep fuel s'

def replaceLit (pat rep : Str) (s : Str) : Str :=
  replaceLitGo pat rep (s.length + 1) s

/-- The apostrophe character, written via its code point. -/
def apos : Char := Char.ofNat 39

/-- The six sequential entity replacements performed by `extractTextContent`,
in source order: `&nbsp;`, `&amp;`, `&lt;`, `&gt;`, `&quot;`, `&#39;`. -/
def decodeEntities (s : Str) : Str :=
  replaceLit (s2l "&#39;") [apos]
    (replaceLit (s2l "&quot;") (s2l "\"")
      (replaceLit (s2l "&gt;") (s2l ">")
        (replaceLit (s2l "&lt;") (s2l "<")
          (replaceLit (s2l "&amp;") (s2l "&")
            (replaceLit (s2l "&nbsp;") (s2l " ") s)))))

/-- `extractTextContent` (identical in `ghostAPI.js` and `contentValidator.js`):
`<br>`→newline, strip tags, decode the six entities in order, then trim. -/
def extractTextContent (html : Str) : Str :=
  jsTrim (decodeEntities (stripTags (brReplace html)))

theorem splitAtFirstCi_length {pat : Str} :
    ∀ {s : Str} {r : Str × Str}, splitAtFirstCi pat s = some r → r.2.length ≤ s.length := by
  intro s
  induction s with
  | nil =>
    intro r h
    simp only [splitAtFirstCi, Option.map_eq_some'] at h
    obtain ⟨r', hr, he⟩ := h
    have hl := dropCiPrefix?_length hr
    subst he
    show r'.length ≤ List.length ([] : List Char)
    simp only [List.length_nil] at hl ⊢
    omega
  | cons c s' ih =>
    intro r h
    simp only [splitAtFirstCi] at h
    split at h
    · rename_i rest hd
      have hl := dropCiPrefix?_length hd
      simp only [Option.some.injEq] at h
      subst h
      show rest.length ≤ (c :: s').length
      simp only [List.length_cons] at hl ⊢
      omega
    · simp only [Option.map_eq_some'] at h
      obtain ⟨⟨a', b'⟩, hp, he⟩ := h
      have hl : b'.length ≤ s'.length := ih hp
      subst he
      show b'.length ≤ (c :: s').length
      simp only [List.length_cons]
      omega

/-- Chars that JS `.` (without the `s` flag) does not match, in the ASCII range. -/
def isDotExcluded (c : Char) : Bool := c = '\n' || c = '\r'

/-- Like `splitAtFirstCi`, but the skipped-over characters are matched by the
lazy `(.*?)` of a JS regex without the `s` flag: scanning fails upon reaching a
newline before the pattern. -/
def splitAtFirstCiDot (pat : Str) : Str → Option (Str × Str)
  | [] => (dropCiPrefix? pat []).map (fun r => ([], r))
  | c :: s' =>
    match dropCiPrefix? pat (c :: s') with
    | some rest => some ([], rest)
    | none =>
      if isDotExcluded c then none
      else (splitAtFirstCiDot pat s').map (fun p => (c :: p.1, p.2))

theorem splitAtFirstCiDot_length {pat : Str} :
    ∀ {s : Str} {r : Str × Str}, splitAtFirstCiDot pat s = some r → r.2.length ≤ s.length := by
  intro s
  induction s with
  | nil =>
    intro r h
    simp only [splitAtFirstCiDot, Option.map_eq_some'] at h
    obtain ⟨r', hr, he⟩ := h
    have hl := dropCiPrefix?_length hr
    subst he
    show r'.length ≤ List.length ([] : List Char)
    simp only [List.length_nil] at hl ⊢
    omega
  | cons c s' ih =>
    intro r h
    simp only [splitAtFirstCiDot] at h
    split at h
    · rename_i rest hd
      have hl := dropCiPrefix?_length hd
      simp only [Option.some.injEq] at h
      subst h
      show rest.length ≤ (c :: s').length
      simp only [List.length_cons] at hl ⊢
      omega
    · split at h
      · simp at h
      · simp only [Option.map_eq_some'] at h
        obtain ⟨⟨a', b'⟩, hp, he⟩ := h
        have hl : b'.length ≤ s'.length := ih hp
        subst he
        show b'.length ≤ (c :: s').length
        simp only [List.length_cons]
        omega

/-! ## Block segmentation (`parseHTMLBlocks`)

The source scans with `/<(h[1-6]|p|ul|ol|blockquote|pre)[^>]*>([\s\S]*?)<\/\1>/gi`.
At a given start position the alternatives are tried in order; an alternative
whose closing tag is never found backtracks to the next alternative. -/

/-- A block produced by `parseHTMLBlocks`: the lower-cased tag and the raw
inner HTML. -/
structure HBlock where
  type : Str
  rawContent : Str
deriving DecidableEq, Repr

/-- Try one tag alternative at a position just after `<`: match `[^>]*>`,
then lazily scan (`[\s\S]*?`) for the backreferenced closing tag. -/
def tryTag (t s1 : Str) : Option (Str × Str) :=
  (dropCiPrefix? t s1).bind fun s2 =>
    match s2.dropWhile (fun c => !(c = '>')) with
    | '>' :: s4 => splitAtFirstCi ('<' :: '/' :: t ++ ['>']) s4
    | _ => none

theorem tryTag_length {t s1 c rest : Str} (h : tryTag t s1 = some (c, rest)) :
    rest.length ≤ s1.length := by
  unfold tryTag at h
  cases hd : dropCiPrefix? t s1 with
  | none => rw [hd] at h; simp at h
  | some s2 =>
    rw [hd] at h
    have h1 := dropCiPrefix?_length hd
    have h2 : (s2.dropWhile (fun c => !(c = '>'))).length ≤ s2.length :=
      length_dropWhile_le _ s2
    simp only [Option.some_bind] at h
    split at h
    · rename_i s4 hs4
      have h3 : (c, rest).2.length ≤ s4.length := splitAtFirstCi_length h
      have h4 : s4.length < (s2.dropWhile (fun c => !(c = '>'))).length := by
        rw [hs4]; simp
      simp only [] at h3
      omega
    · simp at h

/-- The ordered tag alternatives applicable at a position just after `<`
(`h[1-6]` first via the character class, then the literal alternatives). -/
def tagCandidates (s1 : Str) : List Str :=
  (match s1 with
   | c :: d :: _ => if ciEq c 'h' && ('1' ≤ d && d ≤ '6') then [['h', d]] else []
   | _ => []) ++ [s2l "p", s2l "ul", s2l "ol", s2l "blockquote", s2l "pre"]

/-- Try tag alternatives in order, returning the lower-cased matched tag. -/
def tryTags : List Str → Str → Option (Str × Str × Str)
  | [], _ => none
  | t :: ts, s1 =>
    match tryTag t s1 with
    | some (c, rest) => some (t, c, rest)
    | none => tryTags ts s1

theorem tryTags_length {ts : List Str} {s1 t c rest : Str}
    (h : tryTags ts s1 = some (t, c, rest)) : rest.length ≤ s1.length := by
  induction ts with
  | nil => simp [tryTags] at h
  | cons t' ts ih =>
    simp only [tryTags] at h
    split at h
    · rename_i c' rest' htag
      cases h
      exact tryTag_length htag
    · exact ih h

/-- One attempted match of the block regex at the current position. -/
def matchBlockAt (s : Str) : Option (Str × Str × Str) :=
  match s with
  | '<' :: s1 => tryTags (tagCandidates s1) s1
  | _ => none

theorem matchBlockAt_length {s t c rest : Str} (h : matchBlockAt s = some (t, c, rest)) :
    rest.length < s.length := by
  unfold matchBlockAt at h
  split at h
  · rename_i s1
    have := tryTags_length h
    simp only [List.length_cons]; omega
  · simp at h

/-- `parseHTMLBlocks`: repeated leftmost matches of the block regex. -/
def parseHTMLBlocksGo : Nat → Str → List HBlock
  | 0, _ => []
  | fuel + 1, s =>
    match matchBlockAt s with
    | some (t, c, rest) => ⟨t, c⟩ :: parseHTMLBlocksGo fuel rest
    | none =>
      match s with
      | [] => []
      | _ :: s' => parseHTMLBlocksGo fuel s'

def parseHTMLBlocks (s : Str) : List HBlock :=
  parseHTMLBlocksGo (s.length + 1) s

/-! ## Inline parsing (`parseInlineContent`)

The source scans with
`/<strong>(.*?)<\/strong>|<a\s+href=["']([^"']+)["'][^>]*>(.*?)<\/a>|([^<]+)/gi`. -/

/-- An inline Lexical node: a text run (optionally bold, JS `format: 1`) or a
link node (whose single child is a text node). -/
inductive InlineNode
  | text (s : Str) (bold : Bool)
  | link (url : Str) (text : Str)
deriving DecidableEq, Repr

/-- Branch 1 of the inline regex: `<strong>(.*?)<\/strong>`. -/
def strongMatch? (s : Str) : Option (Str × Str) :=
  (dropCiPrefix? (s2l "<strong>") s).bind fun s2 =>
    splitAtFirstCiDot (s2l "</strong>") s2

theorem strongMatch?_length {s c rest : Str} (h : strongMatch? s = some (c, rest)) :
    rest.length < s.length := by
  unfold strongMatch? at h
  cases hd : dropCiPrefix? (s2l "<strong>") s with
  | none => rw [hd] at h; simp at h
  | some s2 =>
    rw [hd] at h
    have h1 := dropCiPrefix?_length hd
    simp only [Option.some_bind] at h
    have h2 : (c, rest).2.length ≤ s2.length := splitAtFirstCiDot_length h
    simp only [] at h2
    simp [s2l] at h1
    omega

/-- Chars excluded by the `[^"']` class: the two quote characters. -/
def isQuote (c : Char) : Bool := c = '"' || c = apos

/-- Branch 2 of the inline regex: `<a\s+href=["']([^"']+)["'][^>]*>(.*?)<\/a>`,
returning `(url, inner-content, rest)`. -/
def aMatch? (s : Str) : Option (Str × Str × Str) :=
  (dropCiPrefix? (s2l "<a") s).bind fun s2 =>
    match s2 with
    | c :: s3 =>
      if isWs c then
        (dropCiPrefix? (s2l "href=") (s3.dropWhile isWs)).bind fun s5 =>
          match s5 with
          | q :: s6 =>
            if isQuote q then
              let url := s6.takeWhile (fun c => !(isQuote c))
              match s6.dropWhile (fun c => !(isQuote c)) with
              | q2 :: s7 =>
                if isQuote q2 && !url.isEmpty then
                  match s7.dropWhile (fun c => !(c = '>')) with
                  | '>' :: s8 =>
                    (splitAtFirstCiDot (s2l "</a>") s8).map fun p => (url, p.1, p.2)
                  | _ => none
                else none
              | _ => none
            else none
          | [] => none
      else none
    | [] => none

theorem aMatch?_length {s url c rest : Str} (h : aMatch? s = some (url, c, rest)) :
    rest.length < s.length := by
  unfold aMatch? at h
  cases hd : dropCiPrefix? (s2l "<a") s with
  | none => rw [hd] at h; simp at h
  | some s2 =>
    rw [hd] at h
    have h1 := dropCiPrefix?_length hd
    simp only [Option.some_bind] at h
    split at h
    case h_2 => simp at h
    rename_i c0 s3
    split at h
    case isFalse => simp at h
    cases hh : dropCiPrefix? (s2l "href=") (s3.dropWhile isWs) with
    | none => rw [hh] at h; simp at h
    | some s5 =>
      rw [hh] at h
      have h2 := dropCiPrefix?_length hh
      have h3 : (s3.dropWhile isWs).length ≤ s3.length := length_dropWhile_le _ s3
      simp only [Option.some_bind] at h
      split at h
      case h_2 => simp at h
      rename_i q s6
      split at h
      case isFalse => simp at h
      split at h
      case h_2 => simp at h
      rename_i q2 s7 hs7
      have h4 : (s6.dropWhile (fun c => !(isQuote c))).length ≤ s6.length :=
        length_dropWhile_le _ s6
      rw [hs7] at h4
      split at h
      case isFalse => simp at h
      split at h
      case h_2 => simp at h
      rename_i s8 hs8
      have h5 : (s7.dropWhile (fun c => !(c = '>'))).length ≤ s7.length :=
        length_dropWhile_le _ s7
      rw [hs8] at h5
      simp only [Option.map_eq_some'] at h
      obtain ⟨⟨a', b'⟩, hp, he⟩ := h
      have h6 : (a', b').2.length ≤ s8.length := splitAtFirstCiDot_length hp
      simp only [] at h6
      have hb : rest = b' := by
        have := congrArg (fun t => t.2.2) he
        simpa using this.symm
      subst hb
      simp only [List.length_cons] at *
      simp [s2l] at h1 h2
      omega

/-- One step of the inline scan: leftmost match, alternatives in order;
returns the produced node (if any) and the rest of the input. -/
def inlineScanGo : Nat → Str → List InlineNode
  | 0, _ => []
  | fuel + 1, s =>
    match strongMatch? s with
    | some (content, rest) =>
      let boldText := extractTextContent content
      (if boldText.isEmpty then id else (InlineNode.text boldText true :: ·))
        (inlineScanGo fuel rest)
    | none =>
      match aMatch? s with
      | some (url, content, rest) =>
        let linkText := extractTextContent content
        (if !content.isEmpty && !linkText.isEmpty then (InlineNode.link url linkText :: ·)
         else id) (inlineScanGo fuel rest)
      | none =>
        match s with
        | [] => []
        | c :: s' =>
          if c = '<' then inlineScanGo fuel s'
          else
            let run := (c :: s').takeWhile (fun x => !(x = '<'))
            let plainText := jsTrim run
            (if plainText.isEmpty then id else (InlineNode.text plainText false :: ·))
              (inlineScanGo fuel ((c :: s').dropWhile (fun x => !(x = '<'))))

def inlineScan (s : Str) : List InlineNode := inlineScanGo (s.length + 1) s

/-- `parseInlineContent`: run the inline scan; if it produced no node, fall
back to a single plain-text node holding the tag-stripped block text. -/
def parseInlineContent (html : Str) : List InlineNode :=
  let nodes := inlineScan html
  if nodes.isEmpty then
    let text := extractTextContent html
    if (jsTrim text).isEmpty then [] else [InlineNode.text text false]
  else nodes

/-! ## List items, block conversion and assembly -/

/-- One match of `/<li[^>]*>([\s\S]*?)<\/li>/gi` at the current position. -/
def liMatch? (s : Str) : Option (Str × Str) :=
  (dropCiPrefix? (s2l "<li") s).bind fun s2 =>
    match s2.dropWhile (fun c => !(c = '>')) with
    | '>' :: s3 => splitAtFirstCi (s2l "</li>") s3
    | _ => none

theorem liMatch?_length {s c rest : Str} (h : liMatch? s = some (c, rest)) :
    rest.length < s.length := by
  unfold liMatch? at h
  cases hd : dropCiPrefix? (s2l "<li") s with
  | none => rw [hd] at h; simp at h
  | some s2 =>
    rw [hd] at h
    have h1 := dropCiPrefix?_length hd
    have h2 : (s2.dropWhile (fun c => !(c = '>'))).length ≤ s2.length :=
      length_dropWhile_le _ s2
    simp only [Option.some_bind] at h
    split at h
    · rename_i s3 hs3
      have h3 : (c, rest).2.length ≤ s3.length := splitAtFirstCi_length h
      simp only [] at h3
      rw [hs3] at h2
      simp only [List.length_cons] at h2
      simp [s2l] at h1
      omega
    · simp at h

/-- `extractListItems`: collect the trimmed inner HTML of each matched
`<li>…</li>`, skipping items whose trimmed content is empty. -/
def extractListItemsGo : Nat → Str → List Str
  | 0, _ => []
  | fuel + 1, s =>
    match liMatch? s with
    | some (item, rest) =>
      let text := jsTrim item
      (if text.isEmpty then id else (text :: ·)) (extractListItemsGo fuel rest)
    | none =>
      match s with
      | [] => []
      | _ :: s' => extractListItemsGo fuel s'

def extractListItems (s : Str) : List Str := extractListItemsGo (s.length + 1) s

/-- A block-level Lexical node (`heading` keeps the tag, e.g. `h2`; a list
keeps the ordered flag and one inline sequence per item; a quote is flattened
to plain text). -/
inductive LexNode
  | heading (tag : Str) (children : List InlineNode)
  | paragraph (children : List InlineNode)
  | list (ordered : Bool) (items : List (List InlineNode))
  | quote (text : Str)
deriving DecidableEq, Repr

/-- `convertBlockToLexical` (the `skipFirstH1` parameter of the source is
unused in its body and omitted here). -/
def convertBlockToLexical (b : HBlock) : Option LexNode :=
  if b.type.head? = some 'h' then
    let text := extractTextContent b.rawContent
    if text.isEmpty then none
    else some (.heading b.type (parseInlineContent b.rawContent))
  else if b.type = s2l "p" then
    let text := extractTextContent b.rawContent
    if text.isEmpty then none
    else some (.paragraph (parseInlineContent b.rawContent))
  else if b.type = s2l "ul" then
    let items := extractListItems b.rawContent
    if items.isEmpty then none
    else some (.list false (items.map parseInlineContent))
  else if b.type = s2l "ol" then
    let items := extractListItems b.rawContent
    if items.isEmpty then none
    else some (.list true (items.map parseInlineContent))
  else if b.type = s2l "blockquote" then
    let text := extractTextContent b.rawContent
    if text.isEmpty then none
    else some (.quote (jsTrim text))
  else none

/-- The conversion loop of `htmlToLexical`: convert each block, dropping the
first block that both converts successfully and has type `h1`. -/
def assembleBlocks : List HBlock → Bool → List LexNode
  | [], _ => []
  | b :: bs, skip =>
    match convertBlockToLexical b with
    | none => assembleBlocks bs skip
    | some n =>
      if b.type = s2l "h1" && !skip then assembleBlocks bs true
      else n :: assembleBlocks bs skip

/-- `htmlToLexical`: the children of the returned Lexical root.  In the
embedding no exception can occur, so the catch-all fallback paragraph of the
source (`Content conversion error - please edit manually`) is unreachable and
the result is always the assembled block list. -/
def htmlToLexical (html : Str) : List LexNode :=
  assembleBlocks (parseHTMLBlocks html) false

/-! ## ContentValidator: counting helpers -/

/-- Tokens of a string split on whitespace runs, empty tokens dropped
(JS `text.trim().split(/\s+/).filter(w => w.length > 0)`). -/
def wsTokensGo : Nat → Str → List Str
  | 0, _ => []
  | _ + 1, [] => []
  | fuel + 1, c :: s' =>
    if isWs c then wsTokensGo fuel s'
    else (c :: s'.takeWhile (fun x => !(isWs x))) ::
      wsTokensGo fuel (s'.dropWhile (fun x => !(isWs x)))

def wsTokens (s : Str) : List Str := wsTokensGo (s.length + 1) s

/-- `countWords`: tokens of the tag-stripped text. -/
def countWords (html : Str) : Nat :=
  (wsTokens (extractTextContent html)).length

/-- JS `str.split(/\s+/).length` where `str` is already trimmed: an empty
string yields `[""]` (length 1), otherwise the token count. -/
def jsSplitWsLength (s : Str) : Nat :=
  if s.isEmpty then 1 else (wsTokens s).length

/-- One match of `/<p[^>]*>[\s\S]*?<\/p>/gi`, returning
`(full-match, rest)`. -/
def pMatch? (s : Str) : Option (Str × Str) :=
  (dropCiPrefix? (s2l "<p") s).bind fun s2 =>
    match s2.dropWhile (fun c => !(c = '>')) with
    | '>' :: s3 =>
      (splitAtFirstCi (s2l "</p>") s3).map fun pr =>
        (s.take (s.length - pr.2.length), pr.2)
    | _ => none

theorem pMatch?_length {s full rest : Str} (h : pMatch? s = some (full, rest)) :
    rest.length < s.length := by
  unfold pMatch? at h
  cases hd : dropCiPrefix? (s2l "<p") s with
  | none => rw [hd] at h; simp at h
  | some s2 =>
    rw [hd] at h
    have h1 := dropCiPrefix?_length hd
    have h2 : (s2.dropWhile (fun c => !(c = '>'))).length ≤ s2.length :=
      length_dropWhile_le _ s2
    simp only [Option.some_bind] at h
    split at h
    · rename_i s3 hs3
      simp only [Option.map_eq_some'] at h
      obtain ⟨⟨a', b'⟩, hp, he⟩ := h
      have h3 : (a', b').2.length ≤ s3.length := splitAtFirstCi_length hp
      simp only [] at h3
      have hb : rest = b' := by
        have := congrArg (fun t => t.2) he
        simpa using this.symm
      subst hb
      rw [hs3] at h2
      simp only [List.length_cons] at h2
      simp [s2l] at h1
      omega
    · simp at h

/-- The full matches of `/<p[^>]*>[\s\S]*?<\/p>/gi`
(JS `content.match(...)`, used by `countParagraphs` / `validateConclusion`). -/
def pMatchesGo : Nat → Str → List Str
  | 0, _ => []
  | fuel + 1, s =>
    match pMatch? s with
    | some (full, rest) => full :: pMatchesGo fuel rest
    | none =>
      match s with
      | [] => []
      | _ :: s' => pMatchesGo fuel s'

def pMatches (s : Str) : List Str := pMatchesGo (s.length + 1) s

/-- `countParagraphs`. -/
def countParagraphs (html : Str) : Nat := (pMatches html).length

/-- One match of `/<h[1-6][^>]*>[\s\S]*?<\/h[1-6]>/gi` (the closing tag may
have a different digit), returning the rest after the match. -/
def hAnyMatch? (s : Str) : Option Str :=
  (dropCiPrefix? (s2l "<h") s).bind fun s2 =>
    match s2 with
    | d :: s3 =>
      if '1' ≤ d && d ≤ '6' then
        match s3.dropWhile (fun c => !(c = '>')) with
        | '>' :: s4 => (splitAtFirstCloseH s4).map (·.2)
        | _ => none
      else none
    | [] => none
where
  /-- Scan for the first occurrence of `<\/h[1-6]>` (case-insensitive). -/
  splitAtFirstCloseH : Str → Option (Str × Str)
  | [] => none
  | c :: s' =>
    match c :: s' with
    | '<' :: '/' :: h :: d :: '>' :: cont =>
      if ciEq h 'h' && ('1' ≤ d && d ≤ '6') then some ([], cont)
      else (splitAtFirstCloseH s').map fun p => (c :: p.1, p.2)
    | _ => (splitAtFirstCloseH s').map fun p => (c :: p.1, p.2)

theorem splitAtFirstCloseH_length :
    ∀ {s : Str} {r : Str × Str}, hAnyMatch?.splitAtFirstCloseH s = some r →
      r.2.length < s.length := by
  intro s
  induction s with
  | nil => intro r h; simp [hAnyMatch?.splitAtFirstCloseH] at h
  | cons c s' ih =>
    intro r h
    rw [hAnyMatch?.splitAtFirstCloseH] at h
    split at h
    · rename_i hch dch cont hcd
      split at h
      · simp only [Option.some.injEq] at h
        subst h
        have hlen := congrArg List.length hcd
        simp only [List.length_cons] at hlen
        show cont.length < (c :: s').length
        simp only [List.length_cons]
        omega
      · simp only [Option.map_eq_some'] at h
        obtain ⟨⟨a', b'⟩, hp, he⟩ := h
        have hl : b'.length < s'.length := ih hp
        subst he
        show b'.length < (c :: s').length
        simp only [List.length_cons]
        omega
    · simp only [Option.map_eq_some'] at h
      obtain ⟨⟨a', b'⟩, hp, he⟩ := h
      have hl : b'.length < s'.length := ih hp
      subst he
      show b'.length < (c :: s').length
      simp only [List.length_cons]
      omega

theorem hAnyMatch?_length {s rest : Str} (h : hAnyMatch? s = some rest) :
    rest.length < s.length := by
  unfold hAnyMatch? at h
  cases hd : dropCiPrefix? (s2l "<h") s with
  | none => rw [hd] at h; simp at h
  | some s2 =>
    rw [hd] at h
    have h1 := dropCiPrefix?_length hd
    simp only [Option.some_bind] at h
    split at h
    case h_2 => simp at h
    rename_i d s3
    split at h
    case isFalse => simp at h
    have h2 : (s3.dropWhile (fun c => !(c = '>'))).length ≤ s3.length :=
      length_dropWhile_le _ s3
    split at h
    case h_2 => simp at h
    rename_i s4 hs4
    rw [hs4] at h2
    simp only [Option.map_eq_some'] at h
    obtain ⟨⟨a', b'⟩, hp, he⟩ := h
    have h3 : b'.length < s4.length := splitAtFirstCloseH_length hp
    subst he
    show b'.length < s.length
    simp only [List.length_cons] at h1 h2
    simp [s2l] at h1
    omega

/-- `countHeadings`. -/
def countHeadingsGo : Nat → Str → Nat
  | 0, _ => 0
  | fuel + 1, s =>
    match hAnyMatch? s with
    | some rest => countHeadingsGo fuel rest + 1
    | none =>
      match s with
      | [] => 0
      | _ :: s' => countHeadingsGo fuel s'

def countHeadings (html : Str) : Nat := countHeadingsGo (html.length + 1) html

/-- One match of `/<a[^>]*href=[^>]*>[\s\S]*?<\/a>/gi` (used by `countLinks`):
`<a`, then a `>`-free stretch containing `href=`, a `>`, then lazily the
closing `</a>`. -/
def aCountMatch? (s : Str) : Option Str :=
  (dropCiPrefix? (s2l "<a") s).bind fun s2 =>
    let run := s2.takeWhile (fun c => !(c = '>'))
    match s2.dropWhile (fun c => !(c = '>')) with
    | '>' :: s4 =>
      if ciContains run (s2l "href=") then (splitAtFirstCi (s2l "</a>") s4).map (·.2)
      else none
    | _ => none

theorem aCountMatch?_length {s rest : Str} (h : aCountMatch? s = some rest) :
    rest.length < s.length := by
  unfold aCountMatch? at h
  cases hd : dropCiPrefix? (s2l "<a") s with
  | none => rw [hd] at h; simp at h
  | some s2 =>
    rw [hd] at h
    have h1 := dropCiPrefix?_length hd
    have h2 : (s2.dropWhile (fun c => !(c = '>'))).length ≤ s2.length :=
      length_dropWhile_le _ s2
    simp only [Option.some_bind] at h
    split at h
    case h_2 => simp at h
    rename_i s4 hs4
    split at h
    case isFalse => simp at h
    simp only [Option.map_eq_some'] at h
    obtain ⟨⟨a', b'⟩, hp, he⟩ := h
    have h3 : b'.length ≤ s4.length := splitAtFirstCi_length hp
    subst he
    show b'.length < s.length
    rw [hs4] at h2
    simp only [List.length_cons] at h2
    simp [s2l] at h1
    omega

/-- `countLinks`. -/
def countLinksGo : Nat → Str → Nat
  | 0, _ => 0
  | fuel + 1, s =>
    match aCountMatch? s with
    | some rest => countLinksGo fuel rest + 1
    | none =>
      match s with
      | [] => 0
      | _ :: s' => countLinksGo fuel s'

def countLinks (html : Str) : Nat := countLinksGo (html.length + 1) html

/-- One match of `/<h([1-6])[^>]*>([\s\S]*?)<\/h\1>/gi` (backreferenced
closing tag), returning `((level, raw-inner), rest)`. -/
def hExactMatch? (s : Str) : Option ((Nat × Str) × Str) :=
  (dropCiPrefix? (s2l "<h") s).bind fun s2 =>
    match s2 with
    | d :: s3 =>
      if '1' ≤ d && d ≤ '6' then
        match s3.dropWhile (fun c => !(c = '>')) with
        | '>' :: s4 =>
          (splitAtFirstCi ('<' :: '/' :: 'h' :: d :: ['>']) s4).map
            fun p => ((d.toNat - '0'.toNat, p.1), p.2)
        | _ => none
      else none
    | [] => none

theorem hExactMatch?_length {s : Str} {lv : Nat} {raw rest : Str}
    (h : hExactMatch? s = some ((lv, raw), rest)) : rest.length < s.length := by
  unfold hExactMatch? at h
  cases hd : dropCiPrefix? (s2l "<h") s with
  | none => rw [hd] at h; simp at h
  | some s2 =>
    rw [hd] at h
    have h1 := dropCiPrefix?_length hd
    simp only [Option.some_bind] at h
    split at h
    case h_2 => simp at h
    rename_i d s3
    split at h
    case isFalse => simp at h
    have h2 : (s3.dropWhile (fun c => !(c = '>'))).length ≤ s3.length :=
      length_dropWhile_le _ s3
    split at h
    case h_2 => simp at h
    rename_i s4 hs4
    rw [hs4] at h2
    simp only [Option.map_eq_some'] at h
    obtain ⟨⟨a', b'⟩, hp, he⟩ := h
    have h3 : b'.length ≤ s4.length := splitAtFirstCi_length hp
    have hb : rest = b' := by
      have := congrArg (fun t => t.2) he
      simpa using this.symm
    rw [hb]
    simp only [List.length_cons] at h1 h2
    simp [s2l] at h1
    omega

/-- `extractHeadings`: all backreference-matched headings, as
`(level, stripped-and-trimmed text)` pairs.  The source strips the inner
HTML with only `replace(/<[^>]*>/g, '')` followed by `trim()` here
(no `<br>`/entity handling). -/
def extractHeadingsGo : Nat → Str → List (Nat × Str)
  | 0, _ => []
  | fuel + 1, s =>
    match hExactMatch? s with
    | some ((lv, raw), rest) => (lv, jsTrim (stripTags raw)) :: extractHeadingsGo fuel rest
    | none =>
      match s with
      | [] => []
      | _ :: s' => extractHeadingsGo fuel s'

def extractHeadings (html : Str) : List (Nat × Str) :=
  extractHeadingsGo (html.length + 1) html

/-- The `href=["']([^"']*)["'][^>]*>` tail of the `extractLinks` regex, tried
at one candidate position: returns `(url, rest-after-open-tag)`. -/
def tryHrefAt (s : Str) : Option (Str × Str) :=
  (dropCiPrefix? (s2l "href=") s).bind fun s5 =>
    match s5 with
    | q :: s6 =>
      if isQuote q then
        let url := s6.takeWhile (fun c => !(isQuote c))
        match s6.dropWhile (fun c => !(isQuote c)) with
        | _ :: s7 =>
          match s7.dropWhile (fun c => !(c = '>')) with
          | '>' :: s8 => some (url, s8)
          | _ => none
        | [] => none
      else none
    | [] => none

theorem tryHrefAt_length {s url rest : Str} (h : tryHrefAt s = some (url, rest)) :
    rest.length < s.length := by
  unfold tryHrefAt at h
  cases hd : dropCiPrefix? (s2l "href=") s with
  | none => rw [hd] at h; simp at h
  | some s5 =>
    rw [hd] at h
    have h1 := dropCiPrefix?_length hd
    simp only [Option.some_bind] at h
    split at h
    case h_2 => simp at h
    rename_i q s6
    split at h
    case isFalse => simp at h
    have h2 : (s6.dropWhile (fun c => !(isQuote c))).length ≤ s6.length :=
      length_dropWhile_le _ s6
    split at h
    case h_2 => simp at h
    rename_i q2 s7 hs7
    rw [hs7] at h2
    have h3 : (s7.dropWhile (fun c => !(c = '>'))).length ≤ s7.length :=
      length_dropWhile_le _ s7
    split at h
    case h_2 => simp at h
    rename_i s8 hs8
    rw [hs8] at h3
    simp only [Option.some.injEq, Prod.mk.injEq] at h
    obtain ⟨-, hrest⟩ := h
    subst hrest
    simp only [List.length_cons] at h1 h2 h3
    simp [s2l] at h1
    omega

/-- Candidate suffixes for the greedy `[^>]*` before `href=`: every suffix of
`s` reachable by skipping non-`>` characters (first entry = skipping zero). -/
def hrefCands : Str → List Str
  | [] => [[]]
  | c :: s' => (c :: s') :: (if c = '>' then [] else hrefCands s')

/-- Greedy choice: the last candidate (longest `[^>]*`) that completes the
match wins; earlier candidates are tried on backtracking. -/
def pickLastHref : List Str → Option (Str × Str)
  | [] => none
  | cand :: cs =>
    match pickLastHref cs with
    | some r => some r
    | none => tryHrefAt cand

theorem hrefCands_sublength {s : Str} : ∀ cand ∈ hrefCands s, cand.length ≤ s.length := by
  induction s with
  | nil => intro cand hc; simp [hrefCands] at hc; simp [hc]
  | cons c s' ih =>
    intro cand hc
    simp only [hrefCands, List.mem_cons] at hc
    rcases hc with rfl | hc
    · simp
    · split at hc
      · simp at hc
      · have := ih cand hc
        simp only [List.length_cons]
        omega

theorem pickLastHref_length {cs : List Str} {url rest : Str}
    (h : pickLastHref cs = some (url, rest)) :
    ∃ cand ∈ cs, rest.length < cand.length := by
  induction cs with
  | nil => simp [pickLastHref] at h
  | cons cand cs ih =>
    simp only [pickLastHref] at h
    split at h
    · rename_i r hr
      cases h
      obtain ⟨c', hc', hl⟩ := ih hr
      exact ⟨c', List.mem_cons_of_mem _ hc', hl⟩
    · exact ⟨cand, List.mem_cons_self _ _, tryHrefAt_length h⟩

/-- One match of the `extractLinks` open-tag regex
`/<a[^>]*href=["']([^"']*)["'][^>]*>/gi`, returning `(url, rest)`. -/
def aHrefOpenMatch? (s : Str) : Option (Str × Str) :=
  (dropCiPrefix? (s2l "<a") s).bind fun s2 => pickLastHref (hrefCands s2)

theorem aHrefOpenMatch?_length {s url rest : Str}
    (h : aHrefOpenMatch? s = some (url, rest)) : rest.length < s.length := by
  unfold aHrefOpenMatch? at h
  cases hd : dropCiPrefix? (s2l "<a") s with
  | none => rw [hd] at h; simp at h
  | some s2 =>
    rw [hd] at h
    have h1 := dropCiPrefix?_length hd
    simp only [Option.some_bind] at h
    obtain ⟨cand, hc, hl⟩ := pickLastHref_length h
    have h2 := hrefCands_sublength cand hc
    simp [s2l] at h1
    omega

/-- `extractLinks`: the captured `href` URLs, filtered to absolute
`http://` / `https://` ones. -/
def extractLinksGo : Nat → Str → List Str
  | 0, _ => []
  | fuel + 1, s =>
    match aHrefOpenMatch? s with
    | some (url, rest) =>
      (if litIsPrefix (s2l "http://") url || litIsPrefix (s2l "https://") url
       then (url :: ·) else id) (extractLinksGo fuel rest)
    | none =>
      match s with
      | [] => []
      | _ :: s' => extractLinksGo fuel s'

def extractLinks (html : Str) : List Str := extractLinksGo (html.length + 1) html

/-! ## Word-boundary pattern counters

`countFirstPersonUsage`, `countRegionalMentions` and the passive-voice check
count global matches of `\b`-anchored patterns.  Each matcher below embeds one
pattern *without* its leading `\b`; the generic scanner tracks whether the
previous character is a word character and only attempts a match at word
boundaries.  Every pattern both starts and ends with a word character, so
after a successful match the scan resumes with `prevWord = true`.  The fuel
argument (`length + 1`) bounds the iteration count and is never exhausted,
since every step advances by at least one character. -/

/-- Ordered alternation of case-insensitive literals (`(?:a|b|…)`); the
alternative sets used in the source are prefix-disjoint, so the first match
is the only possible one. -/
def altCi : List Str → Str → Option Str
  | [], _ => none
  | a :: as, s =>
    match dropCiPrefix? a s with
    | some r => some r
    | none => altCi as s

/-- `\s+`: at least one whitespace character, consumed greedily (each
alternative that can follow starts with a non-whitespace character, so the
greedy consumption is exact). -/
def wsPlus : Str → Option Str
  | [] => none
  | c :: s' => if isWs c then some (s'.dropWhile isWs) else none

/-- A trailing `\b`: succeeds (consuming nothing) iff the next character is
absent or not a word character. -/
def bTail : Str → Option Str
  | [] => some []
  | c :: s' => if isWordChar c then none else some (c :: s')

/-- A single character from a class (e.g. `[- ]`). -/
def charIn (cs : List Char) : Str → Option Str
  | [] => none
  | c :: s' => if cs.contains c then some s' else none

/-- Generic global match count for a `\b`-anchored pattern. -/
def bScanCount (m : Str → Option Str) : Nat → Bool → Str → Nat
  | 0, _, _ => 0
  | _ + 1, _, [] => 0
  | fuel + 1, prevW, c :: s' =>
    if !prevW then
      match m (c :: s') with
      | some rest => bScanCount m fuel true rest + 1
      | none => bScanCount m fuel (isWordChar c) s'
    else bScanCount m fuel (isWordChar c) s'

/-- Count global matches of a `\b`-anchored pattern over `text`. -/
def countPattern (m : Str → Option Str) (text : Str) : Nat :=
  bScanCount m (text.length + 1) false text

/-- `\bI\s+(?:believe|think|see|find|argue|contend|suggest|recommend|ve|have)`. -/
def fpPat1 (s : Str) : Option Str :=
  (dropCiPrefix? (s2l "I") s).bind fun s1 =>
    (wsPlus s1).bind
      (altCi [s2l "believe", s2l "think", s2l "see", s2l "find", s2l "argue",
              s2l "contend", s2l "suggest", s2l "recommend", s2l "ve", s2l "have"])

/-- `\bwe\s+(?:believe|see|find|argue|recommend|ve|have)`. -/
def fpPat2 (s : Str) : Option Str :=
  (dropCiPrefix? (s2l "we") s).bind fun s1 =>
    (wsPlus s1).bind
      (altCi [s2l "believe", s2l "see", s2l "find", s2l "argue",
              s2l "recommend", s2l "ve", s2l "have"])

/-- `\bin my (?:experience|view|work|opinion)`. -/
def fpPat3 (s : Str) : Option Str :=
  (dropCiPrefix? (s2l "in my ") s).bind
    (altCi [s2l "experience", s2l "view", s2l "work", s2l "opinion"])

/-- `\bI've (?:seen|worked|found|learned|witnessed)`. -/
def fpPat4 (s : Str) : Option Str :=
  (dropCiPrefix? ('I' :: apos :: s2l "ve ") s).bind
    (altCi [s2l "seen", s2l "worked", s2l "found", s2l "learned", s2l "witnessed"])

/-- `\bwe've (?:seen|worked|found|learned)`. -/
def fpPat5 (s : Str) : Option Str :=
  (dropCiPrefix? ('w' :: 'e' :: apos :: s2l "ve ") s).bind
    (altCi [s2l "seen", s2l "worked", s2l "found", s2l "learned"])

/-- `countFirstPersonUsage`: the five patterns are each counted over the
tag-stripped text and the counts summed. -/
def countFirstPersonUsage (content : Str) : Nat :=
  let text := extractTextContent content
  countPattern fpPat1 text + countPattern fpPat2 text + countPattern fpPat3 text +
    countPattern fpPat4 text + countPattern fpPat5 text

/-- A `\bword\b` matcher for a literal word. -/
def bWord (w : Str) (s : Str) : Option Str :=
  (dropCiPrefix? w s).bind bTail

/-- `\basia[- ]pacific\b`. -/
def asiaPacificPat (s : Str) : Option Str :=
  (dropCiPrefix? (s2l "asia") s).bind fun s1 =>
    (charIn ['-', ' '] s1).bind fun s2 =>
      (dropCiPrefix? (s2l "pacific") s2).bind bTail

/-- `countRegionalMentions`: six `\b…\b` patterns counted over the
tag-stripped text and summed. -/
def countRegionalMentions (content : Str) : Nat :=
  let text := extractTextContent content
  countPattern (bWord (s2l "singapore")) text +
    countPattern (bWord (s2l "apac")) text +
    countPattern asiaPacificPat text +
    countPattern (bWord (s2l "southeast asia")) text +
    countPattern (bWord (s2l "sea")) text +
    countPattern (bWord (s2l "asean")) text

/-- `\b(is|are|was|were|been|being)\s+\w+ed\b`: after the auxiliary and the
whitespace, the maximal word-character run must have length ≥ 3 and end in
`ed` (the trailing `\b` then holds automatically). -/
def passivePat (s : Str) : Option Str :=
  (altCi [s2l "is", s2l "are", s2l "was", s2l "were", s2l "been", s2l "being"] s).bind
    fun s1 => (wsPlus s1).bind fun s2 =>
      let run := s2.takeWhile isWordChar
      if 3 ≤ run.length &&
          (match run.reverse with
           | dch :: ech :: _ => ciEq dch 'd' && ciEq ech 'e'
           | _ => false) then
        some (s2.dropWhile isWordChar)
      else none

/-- The passive-voice indicator count
(`content.match(/\b(is|are|...)\s+\w+ed\b/gi)`), taken over the raw content
string as in the source. -/
def passiveCount (content : Str) : Nat := countPattern passivePat content

/-! ## Sentence splitting and remaining scalar helpers -/

/-- A sentence delimiter for `split(/[.!?]+/)`. -/
def isSentDelim (c : Char) : Bool := c = '.' || c = '!' || c = '?'

mutual

/-- Accumulator loop of `splitSentences` (collecting a piece). -/
def ssGo (cur : Str) : Str → List Str
  | [] => [cur.reverse]
  | c :: r => if isSentDelim c then cur.reverse :: ssSkip r else ssGo (c :: cur) r

/-- Skipping a maximal delimiter run (`[.!?]+` is greedy). -/
def ssSkip : Str → List Str
  | [] => [[]]
  | c :: r => if isSentDelim c then ssSkip r else ssGo [c] r

end

/-- JS `text.split(/[.!?]+/)`: pieces between maximal delimiter runs,
including empty leading/trailing pieces. -/
def splitSentences (s : Str) : List Str :=
  ssGo [] s

/-- `findLongSentences(...).length`: sentences whose
`trim().split(/\s+/)` token count exceeds 25. -/
def longSentenceCount (content : Str) : Nat :=
  ((splitSentences (extractTextContent content)).filter
    (fun sen => 25 < jsSplitWsLength (jsTrim sen))).length

/-- JS `String.prototype.lastIndexOf` for a non-empty literal pattern:
the greatest index where `pat` occurs (case-sensitive), `-1` if none. -/
def jsLastIndexOf (s pat : Str) : Int :=
  go s 0 (-1)
where
  go : Str → Nat → Int → Int
    | t, i, best =>
      let best' := if litIsPrefix pat t then (i : Int) else best
      match t with
      | [] => best'
      | _ :: r => go r (i + 1) best'

/-- The tail `\s*\.\s*["']?\s*<\/p>` shared by the two incomplete-sentence
regexes (optional quote: both the with-quote and without-quote paths are
tried). -/
def incompTail (s : Str) : Bool :=
  match s.dropWhile isWs with
  | '.' :: s3 =>
    let s4 := s3.dropWhile isWs
    (match s4 with
     | q :: s5 =>
       (if isQuote q then ciIsPrefix (s2l "</p>") (s5.dropWhile isWs) else false) ||
         ciIsPrefix (s2l "</p>") s4
     | [] => false)
  | _ => false

/-- `/[a-z]\s*\.\s*["']?\s*<\/p>/i.test(content)`: an ASCII letter (the `i`
flag makes `[a-z]` case-insensitive) followed by the tail. -/
def incompTest1 : Str → Bool
  | [] => false
  | c :: s' =>
    (('a' ≤ c.toLower && c.toLower ≤ 'z') && incompTail s') || incompTest1 s'

/-- One attempt of `/\b[a-z]{1,2}\s*\.\s*["']?\s*<\/p>/gi` at the current
position (leading `\b` already checked): `{1,2}` greedy, so two letters are
tried before one. -/
def incompAt2 : Str → Bool
  | c :: d :: s' =>
    if ('a' ≤ c.toLower && c.toLower ≤ 'z') then
      (('a' ≤ d.toLower && d.toLower ≤ 'z') && incompTail s') || incompTail (d :: s')
    else false
  | [c] => ('a' ≤ c.toLower && c.toLower ≤ 'z') && incompTail []
  | [] => false

/-- Whether the second incomplete-sentence regex has at least one match. -/
def incompTest2 : Bool → Str → Bool
  | _, [] => false
  | prevW, c :: s' =>
    ((!prevW) && incompAt2 (c :: s')) || incompTest2 (isWordChar c) s'

/-! ## The sub-validators and `validatePost`

JS falsiness of the string fields (`!postData.metaTitle` etc.) is modelled by
emptiness: a missing field and an empty string behave identically in every
check performed, so both are represented by `[]`. -/

/-- Decimal representation of a `Nat` (for interpolated messages). -/
def natStr (n : Nat) : Str := (Nat.repr n).data

/-- Case-sensitive suffix test (JS `endsWith`). -/
def litIsSuffix (pat s : Str) : Bool := litIsPrefix pat.reverse s.reverse

/-- The result record `{valid, errors, warnings}` each sub-validator returns. -/
structure VRes where
  valid : Bool
  errors : List Str
  warnings : List Str
deriving DecidableEq, Repr

/-- The `(errors, warnings)` pair accumulated by `validateTitle`. -/
def validateTitleLists (title : Str) : List Str × List Str :=
  if (jsTrim title).isEmpty then
    ([s2l "Title is empty"], [])
  else
    let t := jsTrim title
    let errors :=
      (if 60 < t.length then
        [s2l "Title too long (" ++ natStr t.length ++ s2l " chars, max 60)"] else []) ++
      (if litIsSuffix (s2l "...") t then
        [s2l "Title appears incomplete (ends with ...)"] else [])
    let warnings :=
      (if t.length < 30 then
        [s2l "Title quite short (" ++ natStr t.length ++ s2l " chars, recommend 40-60)"]
       else []) ++
      (if [s2l "strategies", s2l "guide", s2l "tips", s2l "ways", s2l "methods"].any
            (fun term => litContains (lcStr t) term &&
              !(t.any (fun c => isDigit c) || ciContains t (s2l "singapore") ||
                ciContains t (s2l "apac") || ciContains t (s2l "sea"))) then
        [s2l "Title may be too generic - consider adding specificity (numbers, location, outcome)"]
       else [])
    (errors, warnings)

/-- `validateTitle` (`valid` is `errors.length === 0`; the early empty-title
return carries `valid: false` with the one error, which coincides). -/
@[reducible]
def validateTitle (title : Str) : VRes :=
  { valid := (validateTitleLists title).1.isEmpty
    errors := (validateTitleLists title).1
    warnings := (validateTitleLists title).2 }

/-- The error text for one prohibited phrase. -/
def prohibitedPhraseError (phrase : Str) : Str :=
  s2l "Found prohibited phrase \"" ++ phrase ++ s2l "\" - must use first-person voice instead"

/-- `validateVoice`: each of the four prohibited-phrase regexes contributes at
most one error (tested against the whole content, not per sentence); then the
first-person floor and the passive-voice warning. -/
def validateVoiceLists (content : Str) : List Str × List Str :=
  let errors :=
    (if ciContains content (s2l "this article") then
      [prohibitedPhraseError (s2l "this article")] else []) ++
    (if ciContains content (s2l "this post") then
      [prohibitedPhraseError (s2l "this post")] else []) ++
    (if ciContains content (s2l "this piece") then
      [prohibitedPhraseError (s2l "this piece")] else []) ++
    (if ciContains content (s2l "this blog") then
      [prohibitedPhraseError (s2l "this blog")] else []) ++
    (if countFirstPersonUsage content < 3 then
      [s2l "Insufficient first-person voice (found " ++ natStr (countFirstPersonUsage content) ++
        s2l " instances, need at least 3)"] else [])
  let warnings :=
    if 10 < passiveCount content then
      [s2l "High passive voice usage detected (" ++ natStr (passiveCount content) ++
        s2l " instances) - prefer active voice"]
    else []
  (errors, warnings)

/-- `validateVoice` (`valid` is `errors.length === 0`). -/
@[reducible]
def validateVoice (content : Str) : VRes :=
  { valid := (validateVoiceLists content).1.isEmpty
    errors := (validateVoiceLists content).1
    warnings := (validateVoiceLists content).2 }

/-- `/\b(startup|company|firm|brand|business)\b/i.test(content)`. -/
def hasSpecificExample (content : Str) : Bool :=
  0 < countPattern
      (fun s => (altCi [s2l "startup", s2l "company", s2l "firm", s2l "brand",
                        s2l "business"] s).bind bTail) content

/-- The `(errors, warnings)` pair accumulated by `validateRegionalContext`. -/
def validateRegionalContextLists (content : Str) : List Str × List Str :=
  let rm := countRegionalMentions content
  let errors :=
    if rm = 0 then
      [s2l "Missing regional context - must mention Singapore/APAC/Southeast Asia/SEA"]
    else []
  let warnings :=
    (if rm = 1 then
      [s2l "Only one regional mention - recommend 2-3 throughout article"] else []) ++
    (if !(litContains content (s2l "2023") || litContains content (s2l "2024") ||
          litContains content (s2l "2025")) then
      [s2l "No recent years mentioned (2023-2025) - examples should be dated"] else []) ++
    (if !(hasSpecificExample content) then
      [s2l "Consider adding specific company or industry examples"] else [])
  (errors, warnings)

/-- `validateRegionalContext` (`valid` is `errors.length === 0`). -/
@[reducible]
def validateRegionalContext (content : Str) : VRes :=
  { valid := (validateRegionalContextLists content).1.isEmpty
    errors := (validateRegionalContextLists content).1
    warnings := (validateRegionalContextLists content).2 }

/-- `/<a\s+href/i.test(s)`. -/
def aHrefTest : Str → Bool
  | [] => false
  | c :: s' =>
    (match (dropCiPrefix? (s2l "<a") (c :: s')).bind wsPlus with
     | some s2 => ciIsPrefix (s2l "href") s2
     | none => false) ||
    aHrefTest s'

/-- The `(errors, warnings)` pair accumulated by `validateConclusion`. -/
def validateConclusionLists (content : Str) : List Str × List Str :=
  match (pMatches content).getLast? with
  | none =>
    ([s2l "No paragraphs found in content"], [])
  | some lastParagraph =>
    let lastHeadingIndex := jsLastIndexOf content (s2l "<h2")
    let lastParagraphIndex := jsLastIndexOf content lastParagraph
    let errors :=
      (if 0 < lastHeadingIndex && lastParagraphIndex - 500 < lastHeadingIndex then
        [s2l "Conclusion should NOT have a heading - end with 2-3 sentences only"] else []) ++
      (if aHrefTest lastParagraph then
        [s2l "Conclusion should NOT contain hyperlinks"] else [])
    let conclusionWords := jsSplitWsLength (extractTextContent lastParagraph)
    let warnings :=
      if 100 < conclusionWords then
        [s2l "Conclusion is long (" ++ natStr conclusionWords ++
          s2l " words) - recommend 30-60 words"]
      else if conclusionWords < 20 then
        [s2l "Conclusion is short (" ++ natStr conclusionWords ++
          s2l " words) - recommend 30-60 words"]
      else []
    (errors, warnings)

/-- `validateConclusion` (`valid` is `errors.length === 0`). -/
@[reducible]
def validateConclusion (content : Str) : VRes :=
  { valid := (validateConclusionLists content).1.isEmpty
    errors := (validateConclusionLists content).1
    warnings := (validateConclusionLists content).2 }

/-- Case-insensitive occurrence count (JS `s.match(/pat/gi).length` for a
literal pattern, e.g. `<strong>`). -/
def countCiOccsGo (pat : Str) : Nat → Str → Nat
  | 0, _ => 0
  | fuel + 1, s =>
    match dropCiPrefix? pat s with
    | some rest =>
      if pat = [] then 0   -- never used with an empty pattern
      else countCiOccsGo pat fuel rest + 1
    | none =>
      match s with
      | [] => 0
      | _ :: s' => countCiOccsGo pat fuel s'

def countCiOccs (pat : Str) (s : Str) : Nat := countCiOccsGo pat (s.length + 1) s

/-- Whether some extracted heading satisfies the FAQ test
(`text.toLowerCase().includes('frequently asked questions') || ...('faq')`). -/
def hasFAQHeading (content : Str) : Bool :=
  (extractHeadings content).any fun h =>
    litContains (lcStr h.2) (s2l "frequently asked questions") ||
      litContains (lcStr h.2) (s2l "faq")

/-- The FAQ-requirement error string. -/
def faqError : Str := s2l "FAQ section required for How-To/Playbook template"

/-- The `(errors, warnings)` pair accumulated by `validateContent`. -/
def validateContentLists (content : Str) (templateType : Str) : List Str × List Str :=
  if (jsTrim content).isEmpty then
    ([s2l "Content is empty"], [])
  else
    let wordCount := countWords content
    let headings := extractHeadings content
    let h1Count := (headings.filter (fun h => h.1 = 1)).length
    let h2Count := (headings.filter (fun h => h.1 = 2)).length
    let errors :=
      (if wordCount < 800 then
        [s2l "Content too short (" ++ natStr wordCount ++ s2l " words, minimum 800)"]
       else []) ++
      (if templateType = s2l "How-To / Playbook" && !(hasFAQHeading content) then
        [faqError] else [])
    let warnings :=
      (if wordCount < 800 then []
       else if 1600 < wordCount then
        [s2l "Content quite long (" ++ natStr wordCount ++ s2l " words, target 800-1600)"]
       else []) ++
      (if countParagraphs content < 8 then
        [s2l "Few paragraphs (" ++ natStr (countParagraphs content) ++
          s2l ", recommend at least 8)"] else []) ++
      (if 5 < longSentenceCount content then
        [natStr (longSentenceCount content) ++
          s2l " sentences exceed 25 words - aim for 15-20 words per sentence"] else []) ++
      (if h1Count = 0 then [s2l "No H1 heading found - Ghost will use title"]
       else if 1 < h1Count then
        [s2l "Multiple H1 headings found (" ++ natStr h1Count ++ s2l ") - should be only 1"]
       else []) ++
      (if h2Count < 4 then
        [s2l "Few H2 headings (" ++ natStr h2Count ++
          s2l ", recommend at least 4-6 for readability)"] else []) ++
      (headings.filterMap fun h =>
        if [s2l "introduction", s2l "conclusion", s2l "overview",
            s2l "background", s2l "summary"].any (fun g => lcStr h.2 = g) then
          some (s2l "Generic heading found: \"" ++ h.2 ++
            s2l "\" - make headings more specific and valuable")
        else none) ++
      (if !(litContains content (s2l "<ul>")) && !(litContains content (s2l "<ol>")) then
        [s2l "No lists found - consider adding for readability"] else []) ++
      (if countCiOccs (s2l "<strong>") content = 0 then
        [s2l "No bold text found - use <strong> to emphasize key points (3-5 times)"]
       else []) ++
      (if incompTest1 content && incompTest2 false content then
        [s2l "Possible incomplete sentences detected - verify all sentences are complete"]
       else [])
    (errors, warnings)

/-- `validateContent` (`valid` is `errors.length === 0`). -/
@[reducible]
def validateContent (content : Str) (templateType : Str) : VRes :=
  { valid := (validateContentLists content templateType).1.isEmpty
    errors := (validateContentLists content templateType).1
    warnings := (validateContentLists content templateType).2 }

/-- The post-data record consumed by `validatePost` / `validateSEO`
(string fields; `[]` models a missing/empty field, see above). -/
structure PostData where
  title : Str
  content : Str
  metaTitle : Str
  metaDescription : Str
  ogTitle : Str
  ogDescription : Str
  keyword : Str
deriving DecidableEq, Repr

mutual

/-- Syntax validity of an ECMAScript `new RegExp(pattern)` call, for the
fragment relevant here: `\` must escape a following character, `[…]` classes
must be terminated, and `(`/`)` groups must balance.  Keywords consisting of
letters, digits and spaces are valid; a lone `(` is not (JS throws
`SyntaxError: Invalid regular expression: missing )`). -/
def regexSyntaxOk : Str → Nat → Bool
  | [], depth => depth = 0
  | '\\' :: rest, depth =>
    match rest with
    | [] => false
    | _ :: r => regexSyntaxOk r depth
  | '[' :: rest, depth => regexClassOk rest depth
  | '(' :: rest, depth => regexSyntaxOk rest (depth + 1)
  | ')' :: rest, depth =>
    match depth with
    | 0 => false
    | d + 1 => regexSyntaxOk rest d
  | _ :: rest, depth => regexSyntaxOk rest depth

/-- Inside a `[…]` character class. -/
def regexClassOk : Str → Nat → Bool
  | [], _ => false
  | '\\' :: rest, depth =>
    match rest with
    | [] => false
    | _ :: r => regexClassOk r depth
  | ']' :: rest, depth => regexSyntaxOk rest depth
  | _ :: rest, depth => regexClassOk rest depth

end

/-- Round `kc·100/wc` to two decimals and print it, approximating JS
`density.toFixed(2)` (exact for the rational value, rounding half up;
the binary-float rounding of JS may differ in borderline cases, which
affects only the digits inside these advisory warning strings). -/
def densityFixed2 (kc wc : Nat) : Str :=
  let n := (kc * 20000 + wc) / (2 * wc)
  natStr (n / 100) ++ s2l "." ++
    (if n % 100 < 10 then '0' :: natStr (n % 100) else natStr (n % 100))

/-- `validateSEO`.  The keyword-density check builds
`new RegExp(postData.keyword.toLowerCase(), 'g')` from the raw keyword: a
syntactically invalid pattern throws, modelled as `Except.error`.  For valid
patterns the occurrence count is the literal count (exact for
metacharacter-free keywords, the only ones otherwise exercised).  A zero word
count makes `density` NaN (no warning) unless the keyword occurs, in which
case it is Infinity (high warning). -/
def validateSEOLists (postData : PostData) : Except Str (List Str × List Str) :=
  let metaErrors :=
    (if postData.metaTitle.isEmpty then [s2l "Meta title is missing"]
     else if 60 < postData.metaTitle.length then
      [s2l "Meta title too long (" ++ natStr postData.metaTitle.length ++
        s2l " chars, max 60)"]
     else []) ++
    (if postData.metaDescription.isEmpty then [s2l "Meta description is missing"]
     else if 160 < postData.metaDescription.length then
      [s2l "Meta description too long (" ++ natStr postData.metaDescription.length ++
        s2l " chars, max 160)"]
     else [])
  let descWarnings :=
    if !postData.metaDescription.isEmpty && postData.metaDescription.length < 150 then
      [s2l "Meta description short (" ++ natStr postData.metaDescription.length ++
        s2l " chars, recommend 150-160)"]
    else []
  let ogWarnings :=
    (if postData.ogTitle.isEmpty then
      [s2l "OG title missing (will default to meta title)"] else []) ++
    (if postData.ogDescription.isEmpty then
      [s2l "OG description missing (will default to meta description)"] else [])
  if postData.keyword.isEmpty then
    Except.ok (metaErrors, descWarnings ++ ogWarnings)
  else if !(regexSyntaxOk (lcStr postData.keyword) 0) then
    Except.error (s2l "SyntaxError: Invalid regular expression")
  else
    let kc := countLitOccs (lcStr postData.keyword) (lcStr postData.content)
    let wc := countWords postData.content
    let densityWarnings :=
      if wc = 0 then
        if kc = 0 then []   -- 0/0 is NaN: neither comparison holds
        else [s2l "Keyword density high (Infinity%, may be over-optimized)"]
      else if kc * 200 < wc then   -- density < 0.5
        [s2l "Keyword density low (" ++ densityFixed2 kc wc ++
          s2l "%, recommend 1-1.5%)"]
      else if wc < kc * 50 then    -- density > 2
        [s2l "Keyword density high (" ++ densityFixed2 kc wc ++
          s2l "%, may be over-optimized)"]
      else []
    Except.ok (metaErrors, descWarnings ++ ogWarnings ++ densityWarnings)

/-- `validateSEO` as a `VRes` (or a thrown exception). -/
def validateSEO (postData : PostData) : Except Str VRes :=
  match validateSEOLists postData with
  | .error e => .error e
  | .ok ew => .ok { valid := ew.1.isEmpty, errors := ew.1, warnings := ew.2 }

/-- The featured-image descriptor. -/
structure ImageData where
  url : Str
  altText : Str
deriving DecidableEq, Repr

/-- The (mocked) outcome of the image `HEAD` request: a status code with a
`Content-Type` header, or a request failure with its error message. -/
inductive ImageResp
  | ok (status : Nat) (contentType : Str)
  | err (message : Str)
deriving DecidableEq, Repr

/-- The `(errors, warnings)` pair accumulated by `validateImage`, with the
network response supplied as a parameter. -/
def validateImageLists (imageData : Option ImageData) (resp : ImageResp) :
    List Str × List Str :=
  match imageData with
  | none =>
    ([], [s2l "No featured image - consider adding for better engagement"])
  | some img =>
    if img.url.isEmpty then
      ([], [s2l "No featured image - consider adding for better engagement"])
    else
      let reqErrors :=
        match resp with
        | .ok status contentType =>
          (if status ≠ 200 then
            [s2l "Image URL returned status " ++ natStr status] else []) ++
          (if !(litContains contentType (s2l "image")) then
            [s2l "Image URL does not point to an image (" ++ contentType ++ s2l ")"]
           else [])
        | .err message => [s2l "Image URL not accessible: " ++ message]
      let altWarnings :=
        if img.altText.isEmpty then
          [s2l "Image alt text is missing - bad for SEO and accessibility"]
        else if img.altText.length < 10 then
          [s2l "Image alt text is very short - should be descriptive"]
        else if 125 < img.altText.length then
          [s2l "Image alt text is too long - keep under 125 characters"]
        else []
      (reqErrors, altWarnings)

/-- `validateImage` (`valid` is `errors.length === 0`; the no-image early
return carries `valid: true` with no errors, which coincides). -/
@[reducible]
def validateImage (imageData : Option ImageData) (resp : ImageResp) : VRes :=
  { valid := (validateImageLists imageData resp).1.isEmpty
    errors := (validateImageLists imageData resp).1
    warnings := (validateImageLists imageData resp).2 }

/-- `validateLinks` (warnings only), with per-URL reachability supplied as a
parameter; only the first five links are probed. -/
def validateLinks (content : Str) (linkOk : Str → Bool) : List Str :=
  let links := extractLinks content
  if links.isEmpty then
    [s2l "No external links found - consider adding 3-4 authoritative sources"]
  else
    (if links.length < 3 then
      [s2l "Only " ++ natStr links.length ++
        s2l " external link(s) - recommend 3-4 for credibility"] else []) ++
    ((links.take 5).filterMap fun l =>
      if linkOk l then none else some (s2l "Link may be broken: " ++ l))

/-- The computed content metrics. -/
structure ContentMetrics where
  wordCount : Nat
  paragraphCount : Nat
  headingCount : Nat
  linkCount : Nat
  firstPersonUsage : Nat
  regionalMentions : Nat
deriving DecidableEq, Repr

/-- The six metrics, all functions of the `content` string alone. -/
def metricsOf (content : Str) : ContentMetrics :=
  { wordCount := countWords content
    paragraphCount := countParagraphs content
    headingCount := countHeadings content
    linkCount := countLinks content
    firstPersonUsage := countFirstPersonUsage content
    regionalMentions := countRegionalMentions content }

/-- The overall validation result. -/
structure ValidationResult where
  valid : Bool
  errors : List Str
  warnings : List Str
  metrics : ContentMetrics
deriving DecidableEq, Repr

/-- The fixed responses of the two network-dependent checks
(image `HEAD` request and link `HEAD` probes). -/
structure NetOracle where
  imageResp : ImageResp
  linkOk : Str → Bool

/-- `validatePost`: runs the eight checks in source order, accumulating
errors (each sub-validator's errors are appended when its `valid` flag is
false) and warnings; `valid` is `errors.length === 0`.  The `validateSEO`
keyword-regex exception propagates out of the function (`Except.error`). -/
def validatePost (postData : PostData) (imageData : Option ImageData)
    (templateType : Str) (net : NetOracle) : Except Str ValidationResult :=
  let tv := validateTitle postData.title
  let cv := validateContent postData.content templateType
  let vv := validateVoice postData.content
  let xv := validateRegionalContext postData.content
  match validateSEO postData with
  | .error e => .error e
  | .ok sv =>
    let iv := validateImage imageData net.imageResp
    let lw := validateLinks postData.content net.linkOk
    let conv := validateConclusion postData.content
    let errors :=
      (if tv.valid then [] else tv.errors) ++
      (if cv.valid then [] else cv.errors) ++
      (if vv.valid then [] else vv.errors) ++
      (if xv.valid then [] else xv.errors) ++
      (if sv.valid then [] else sv.errors) ++
      (if iv.valid then [] else iv.errors) ++
      (if conv.valid then [] else conv.errors)
    let warnings :=
      tv.warnings ++ cv.warnings ++ vv.warnings ++ xv.warnings ++ sv.warnings ++
        iv.warnings ++ lw ++ conv.warnings
    Except.ok
      { valid := errors.isEmpty
        errors := errors
        warnings := warnings
        metrics := metricsOf postData.content }

/-! ## Helper lemmas for the claims -/

theorem head_ne_of {a b : Char} {xs ys : Str} (hx : xs.head? = some a)
    (hy : ys.head? = some b) (hab : a ≠ b) : xs ≠ ys := by
  intro h
  rw [h, hy] at hx
  injection hx with hx2
  exact hab hx2.symm

theorem sub_valid_iff (v : VRes) (hv : v.valid = v.errors.isEmpty) :
    (if v.valid then ([] : List Str) else v.errors) = v.errors := by
  by_cases h : v.valid = true
  · rw [if_pos h]
    rw [h] at hv
    exact (List.isEmpty_iff.mp hv.symm).symm
  · rw [if_neg h]

theorem validateTitle_valid (t : Str) :
    (validateTitle t).valid = (validateTitle t).errors.isEmpty := by with_reducible rfl

theorem validateContent_valid (c tpl : Str) :
    (validateContent c tpl).valid = (validateContent c tpl).errors.isEmpty := by
  with_reducible rfl

theorem validateVoice_valid (c : Str) :
    (validateVoice c).valid = (validateVoice c).errors.isEmpty := by with_reducible rfl

theorem validateRegionalContext_valid (c : Str) :
    (validateRegionalContext c).valid = (validateRegionalContext c).errors.isEmpty := by
  with_reducible rfl

theorem validateConclusion_valid (c : Str) :
    (validateConclusion c).valid = (validateConclusion c).errors.isEmpty := by
  with_reducible rfl

theorem validateSEO_valid (p : PostData) {sv : VRes} (h : validateSEO p = Except.ok sv) :
    sv.valid = sv.errors.isEmpty := by
  unfold validateSEO at h
  split at h
  · cases h
  · cases h; rfl

theorem validateImage_valid (img : Option ImageData) (resp : ImageResp) :
    (validateImage img resp).valid = (validateImage img resp).errors.isEmpty := by
  with_reducible rfl

theorem validateTitle_errors_def (t : Str) :
    (validateTitle t).errors = (validateTitleLists t).1 := by with_reducible rfl

theorem validateContent_errors_def (c tpl : Str) :
    (validateContent c tpl).errors = (validateContentLists c tpl).1 := by with_reducible rfl

theorem validateRegionalContext_errors_def (c : Str) :
    (validateRegionalContext c).errors = (validateRegionalContextLists c).1 := by
  with_reducible rfl

theorem validateConclusion_errors_def (c : Str) :
    (validateConclusion c).errors = (validateConclusionLists c).1 := by with_reducible rfl

theorem validateImage_errors_def (img : Option ImageData) (resp : ImageResp) :
    (validateImage img resp).errors = (validateImageLists img resp).1 := by
  with_reducible rfl

/-- The record produced by `validatePost` in the non-throwing case, as a
function of the sub-results (used to reason about the assembled result). -/
theorem validatePost_ok {p : PostData} {img : Option ImageData} {tpl : Str}
    {net : NetOracle} {sv : VRes} (hseo : validateSEO p = Except.ok sv) :
    validatePost p img tpl net = Except.ok
      { valid :=
          ((if (validateTitle p.title).valid then [] else (validateTitle p.title).errors) ++
           (if (validateContent p.content tpl).valid then []
            else (validateContent p.content tpl).errors) ++
           (if (validateVoice p.content).valid then [] else (validateVoice p.content).errors) ++
           (if (validateRegionalContext p.content).valid then []
            else (validateRegionalContext p.content).errors) ++
           (if sv.valid then [] else sv.errors) ++
           (if (validateImage img net.imageResp).valid then []
            else (validateImage img net.imageResp).errors) ++
           (if (validateConclusion p.content).valid then []
            else (validateConclusion p.content).errors)).isEmpty
        errors :=
          (if (validateTitle p.title).valid then [] else (validateTitle p.title).errors) ++
          (if (validateContent p.content tpl).valid then []
           else (validateContent p.content tpl).errors) ++
          (if (validateVoice p.content).valid then [] else (validateVoice p.content).errors) ++
          (if (validateRegionalContext p.content).valid then []
           else (validateRegionalContext p.content).errors) ++
          (if sv.valid then [] else sv.errors) ++
          (if (validateImage img net.imageResp).valid then []
           else (validateImage img net.imageResp).errors) ++
          (if (validateConclusion p.content).valid then []
           else (validateConclusion p.content).errors)
        warnings :=
          (validateTitle p.title).warnings ++ (validateContent p.content tpl).warnings ++
          (validateVoice p.content).warnings ++ (validateRegionalContext p.content).warnings ++
          sv.warnings ++ (validateImage img net.imageResp).warnings ++
          validateLinks p.content net.linkOk ++ (validateConclusion p.content).warnings
        metrics := metricsOf p.content } := by
  unfold validatePost
  rw [hseo]

/-! ## Claim C6 -/

/-- **C6** (confirmed): for every input and every result actually returned
(non-throwing case), `valid` is exactly the emptiness of `errors`, so
warnings can never influence `valid`. -/
theorem validatePost_valid_iff_no_errors (p : PostData) (img : Option ImageData)
    (tpl : Str) (net : NetOracle) (r : ValidationResult)
    (h : validatePost p img tpl net = Except.ok r) :
    r.valid = r.errors.isEmpty ∧ (r.valid = true ↔ r.errors = []) := by
  unfold validatePost at h
  split at h
  · cases h
  · cases h
    exact ⟨rfl, List.isEmpty_iff⟩

/-- Concrete input for the C6/C9 witnesses. -/
def witnessPost : PostData :=
  { title := s2l "A perfectly reasonable title for the witness"
    content := s2l "<p>Some words here.</p>"
    metaTitle := s2l "Meta title"
    metaDescription := s2l "Meta description"
    ogTitle := s2l "OG"
    ogDescription := s2l "OG"
    keyword := [] }

/-- Concrete network oracle for the witnesses. -/
def witnessNet : NetOracle :=
  { imageResp := .ok 200 (s2l "image/png"), linkOk := fun _ => true }

/-- Witness for C6: the theorem applied at a concrete, fully evaluated run. -/
theorem validatePost_valid_iff_no_errors_witness :
    (validatePost witnessPost none (s2l "Expert Q&A") witnessNet).isOk = true ∧
    ∀ r, validatePost witnessPost none (s2l "Expert Q&A") witnessNet = Except.ok r →
      r.valid = r.errors.isEmpty ∧ (r.valid = true ↔ r.errors = []) :=
  ⟨by decide, fun r h =>
    validatePost_valid_iff_no_errors witnessPost none (s2l "Expert Q&A") witnessNet r h⟩

/-! ## Claim C9 -/

/-- **C9** (confirmed): `validatePost` is deterministic — identical inputs
with identical network responses yield identical results — and the metrics of
any returned result are the fixed pure function `metricsOf` of the content
string alone (so they do not depend on the image, template or network). -/
theorem validatePost_deterministic (p₁ p₂ : PostData) (img₁ img₂ : Option ImageData)
    (tpl₁ tpl₂ : Str) (net₁ net₂ : NetOracle)
    (hp : p₁ = p₂) (hi : img₁ = img₂) (ht : tpl₁ = tpl₂) (hn : net₁ = net₂) :
    validatePost p₁ img₁ tpl₁ net₁ = validatePost p₂ img₂ tpl₂ net₂ ∧
    ∀ r, validatePost p₁ img₁ tpl₁ net₁ = Except.ok r → r.metrics = metricsOf p₁.content := by
  subst hp; subst hi; subst ht; subst hn
  refine ⟨rfl, fun r h => ?_⟩
  unfold validatePost at h
  split at h
  · cases h
  · cases h; rfl

/-- Witness for C9: the theorem applied at concrete equal inputs. -/
theorem validatePost_deterministic_witness :
    validatePost witnessPost none (s2l "Expert Q&A") witnessNet =
      validatePost witnessPost none (s2l "Expert Q&A") witnessNet ∧
    ∀ r, validatePost witnessPost none (s2l "Expert Q&A") witnessNet = Except.ok r →
      r.metrics = metricsOf witnessPost.content :=
  validatePost_deterministic witnessPost witnessPost none none _ _ witnessNet witnessNet
    rfl rfl rfl rfl

/-! ## Claim C10 -/

/-- Post whose keyword is a lone `(` — an invalid regular expression. -/
def c10Post : PostData :=
  { title := s2l "T", content := s2l "<p>x</p>", metaTitle := s2l "m"
    metaDescription := s2l "d", ogTitle := s2l "o", ogDescription := s2l "o"
    keyword := ['('] }

/-- **C10** (confirmed): for the keyword `"("` — a regex metacharacter with
no closing parenthesis — the keyword-density check of `validateSEO` builds an
invalid `RegExp` and throws, so `validatePost` propagates the exception
instead of returning a `ValidationResult`: it is not total in the keyword. -/
theorem validatePost_throws_on_invalid_keyword_regex :
    c10Post.keyword = ['('] ∧
    validatePost c10Post none (s2l "Expert Q&A") witnessNet =
      Except.error (s2l "SyntaxError: Invalid regular expression") := by
  constructor
  · rfl
  · rfl

/-! ## Claim C8 -/

theorem mem_guard {α : Type} (a x : α) (c : Prop) [Decidable c] :
    a ∈ (if c then [x] else []) ↔ (c ∧ a = x) := by
  split <;> simp_all

theorem count_guard (a x : Str) (c : Prop) [Decidable c] :
    (if c then [x] else []).count a = if c ∧ a = x then 1 else 0 := by
  split
  · rename_i hcp
    by_cases h : a = x
    · subst h; simp [hcp]
    · simp [hcp, h]
  · rename_i hcn
    rw [List.count_nil, if_neg (fun hh => hcn hh.1)]

/-- The title-too-long error for a given trimmed length. -/
theorem validateTitleLists_errors (title : Str) (h : (jsTrim title).isEmpty = false) :
    (validateTitleLists title).1 =
      (if 60 < (jsTrim title).length then
        [s2l "Title too long (" ++ natStr (jsTrim title).length ++ s2l " chars, max 60)"]
       else []) ++
      (if litIsSuffix (s2l "...") (jsTrim title) then
        [s2l "Title appears incomplete (ends with ...)"] else []) := by
  unfold validateTitleLists
  rw [if_neg (by simp [h])]

/-- **C8** (corrected): the length test is applied to the *trimmed* title.  A
trimmed length of exactly 61 always produces the too-long error; a trimmed
length of exactly 60 never produces any "Title too long (" error. -/
theorem validateTitle_boundary (title : Str) :
    ((jsTrim title).length = 61 →
      s2l "Title too long (61 chars, max 60)" ∈ (validateTitle title).errors) ∧
    ((jsTrim title).length = 60 →
      ∀ e ∈ (validateTitle title).errors, litIsPrefix (s2l "Title too long (") e = false) := by
  constructor
  · intro h61
    have hne : (jsTrim title).isEmpty = false := by
      cases ht : jsTrim title with
      | nil => rw [ht] at h61; simp at h61
      | cons a l => rfl
    rw [validateTitle_errors_def, validateTitleLists_errors title hne, h61]
    rw [if_pos (by omega)]
    exact List.mem_append_left _ (by rw [show (natStr 61) = ['6', '1'] from rfl]; exact List.mem_singleton.mpr (by decide))
  · intro h60 e he
    have hne : (jsTrim title).isEmpty = false := by
      cases ht : jsTrim title with
      | nil => rw [ht] at h60; simp at h60
      | cons a l => rfl
    rw [validateTitle_errors_def, validateTitleLists_errors title hne, h60] at he
    rw [if_neg (by omega)] at he
    rw [List.nil_append, mem_guard] at he
    rw [he.2]
    decide

/-- Witness for C8 (amended): both boundary cases at concrete titles. -/
theorem validateTitle_boundary_witness :
    s2l "Title too long (61 chars, max 60)" ∈
      (validateTitle (List.replicate 61 'a')).errors ∧
    ∀ e ∈ (validateTitle (List.replicate 60 'a')).errors,
      litIsPrefix (s2l "Title too long (") e = false :=
  ⟨(validateTitle_boundary (List.replicate 61 'a')).1 (by decide),
   (validateTitle_boundary (List.replicate 60 'a')).2 (by decide)⟩

/-- **C8 counterexample**: a title string of exactly 61 characters (60 `a`s
and a trailing space) for which `validateTitle` reports *no* error at all —
the claim "every title string of exactly 61 characters gets a title-too-long
error" is false because the source trims the title first. -/
theorem validateTitle_61_chars_no_error :
    (List.replicate 60 'a' ++ [' ']).length = 61 ∧
    (validateTitle (List.replicate 60 'a' ++ [' '])).errors = [] := by
  constructor
  · decide
  · decide

/-! ## Claim C2 -/

/-- The first-person-floor error message. -/
theorem insufficientErr_ne_thisArticle (n : Nat) :
    prohibitedPhraseError (s2l "this article") ≠
      s2l "Insufficient first-person voice (found " ++ natStr n ++
        s2l " instances, need at least 3)" :=
  head_ne_of rfl rfl (by decide)

/-- The errors of `validateVoice`, by definition. -/
theorem validateVoice_errors_eq (content : Str) :
    (validateVoice content).errors =
      (if ciContains content (s2l "this article") = true then
        [prohibitedPhraseError (s2l "this article")] else []) ++
      (if ciContains content (s2l "this post") = true then
        [prohibitedPhraseError (s2l "this post")] else []) ++
      (if ciContains content (s2l "this piece") = true then
        [prohibitedPhraseError (s2l "this piece")] else []) ++
      (if ciContains content (s2l "this blog") = true then
        [prohibitedPhraseError (s2l "this blog")] else []) ++
      (if countFirstPersonUsage content < 3 then
        [s2l "Insufficient first-person voice (found " ++
          natStr (countFirstPersonUsage content) ++ s2l " instances, need at least 3)"]
       else []) := by
  have hd : (validateVoice content).errors = (validateVoiceLists content).1 := by
    with_reducible rfl
  rw [hd]
  simp only [validateVoiceLists]

/-- **C2** (corrected): `validateVoice` has no citation-context exemption and
no per-sentence reporting: the "this article" error is present exactly when
the phrase occurs anywhere in the content (case-insensitively), regardless of
any citation language, and it occurs exactly once in the error list however
many sentences contain the phrase. -/
theorem validateVoice_this_article_unconditional (content : Str) :
    (prohibitedPhraseError (s2l "this article") ∈ (validateVoice content).errors ↔
      ciContains content (s2l "this article") = true) ∧
    (validateVoice content).errors.count (prohibitedPhraseError (s2l "this article")) =
      (if ciContains content (s2l "this article") = true then 1 else 0) := by
  have h5 := insufficientErr_ne_thisArticle (countFirstPersonUsage content)
  have n2 : ¬(ciContains content (s2l "this post") = true ∧
      prohibitedPhraseError (s2l "this article") = prohibitedPhraseError (s2l "this post")) := by
    rintro ⟨-, he⟩; exact absurd he (by decide)
  have n3 : ¬(ciContains content (s2l "this piece") = true ∧
      prohibitedPhraseError (s2l "this article") = prohibitedPhraseError (s2l "this piece")) := by
    rintro ⟨-, he⟩; exact absurd he (by decide)
  have n4 : ¬(ciContains content (s2l "this blog") = true ∧
      prohibitedPhraseError (s2l "this article") = prohibitedPhraseError (s2l "this blog")) := by
    rintro ⟨-, he⟩; exact absurd he (by decide)
  have n5 : ¬(countFirstPersonUsage content < 3 ∧
      prohibitedPhraseError (s2l "this article") =
        s2l "Insufficient first-person voice (found " ++
          natStr (countFirstPersonUsage content) ++ s2l " instances, need at least 3)") := by
    rintro ⟨-, he⟩; exact absurd he h5
  rw [validateVoice_errors_eq]
  constructor
  · simp only [List.mem_append, mem_guard]
    constructor
    · rintro ((((⟨hc, -⟩ | hx) | hx) | hx) | hx)
      · exact hc
      · exact absurd hx n2
      · exact absurd hx n3
      · exact absurd hx n4
      · exact absurd hx n5
    · intro hc
      exact Or.inl (Or.inl (Or.inl (Or.inl ⟨hc, trivial⟩)))
  · simp only [List.count_append, count_guard]
    rw [if_neg n2, if_neg n3, if_neg n4, if_neg n5]
    by_cases hc : ciContains content (s2l "this article") = true
    · rw [if_pos ⟨hc, trivial⟩, if_pos hc]
    · rw [if_neg (by rintro ⟨h, -⟩; exact hc h), if_neg hc]

/-- **C2 counterexample**: a sentence containing both "according to" and
"this article" still produces the prohibited-phrase error — the claimed
citation-language exemption does not exist in the code. -/
theorem validateVoice_citation_no_exemption :
    ciContains (s2l "According to the study, this article draws on research.")
      (s2l "according to") = true ∧
    prohibitedPhraseError (s2l "this article") ∈
      (validateVoice (s2l "According to the study, this article draws on research.")).errors := by
  constructor
  · decide
  · decide

/-! ## Claim C7 -/

theorem mem_guard3 {α : Type} (a x y : α) (c1 c2 : Prop) [Decidable c1] [Decidable c2] :
    a ∈ (if c1 then [x] else if c2 then [y] else []) ↔
      (c1 ∧ a = x) ∨ (¬c1 ∧ c2 ∧ a = y) := by
  split
  · simp_all
  · split <;> simp_all

theorem not_mem_guarded {e : Str} (v : VRes) (hnot : e ∉ v.errors) :
    e ∉ (if v.valid then [] else v.errors) := by
  split
  · simp
  · exact hnot

theorem faqError_not_in_title (t : Str) : faqError ∉ (validateTitle t).errors := by
  rw [validateTitle_errors_def]
  cases h : (jsTrim t).isEmpty
  · rw [validateTitleLists_errors t h]
    intro hm
    rcases List.mem_append.mp hm with hx | hx <;> rw [mem_guard] at hx
    · exact absurd hx.2 (head_ne_of rfl rfl (by decide))
    · exact absurd hx.2 (by decide)
  · unfold validateTitleLists
    rw [if_pos h]
    decide

theorem faqError_not_in_voice (c : Str) : faqError ∉ (validateVoice c).errors := by
  rw [validateVoice_errors_eq]
  intro hm
  rcases List.mem_append.mp hm with hx | hx
  rotate_left
  · rw [mem_guard] at hx
    exact absurd hx.2 (head_ne_of rfl rfl (by decide))
  rcases List.mem_append.mp hx with hx | hx
  rotate_left
  · rw [mem_guard] at hx
    exact absurd hx.2 (by decide)
  rcases List.mem_append.mp hx with hx | hx
  rotate_left
  · rw [mem_guard] at hx
    exact absurd hx.2 (by decide)
  rcases List.mem_append.mp hx with hx | hx <;> rw [mem_guard] at hx
  · exact absurd hx.2 (by decide)
  · exact absurd hx.2 (by decide)

theorem faqError_not_in_regional (c : Str) :
    faqError ∉ (validateRegionalContext c).errors := by
  rw [validateRegionalContext_errors_def]
  intro hm
  simp only [validateRegionalContextLists] at hm
  rw [mem_guard] at hm
  exact absurd hm.2 (by decide)

theorem faqError_not_in_seoLists (p : PostData) {ew : List Str × List Str}
    (h : validateSEOLists p = Except.ok ew) : faqError ∉ ew.1 := by
  have hmeta : ∀ hm : faqError ∈
      ((if p.metaTitle.isEmpty = true then [s2l "Meta title is missing"]
        else if 60 < p.metaTitle.length then
          [s2l "Meta title too long (" ++ natStr p.metaTitle.length ++ s2l " chars, max 60)"]
        else []) ++
       (if p.metaDescription.isEmpty = true then [s2l "Meta description is missing"]
        else if 160 < p.metaDescription.length then
          [s2l "Meta description too long (" ++ natStr p.metaDescription.length ++
            s2l " chars, max 160)"]
        else [])), False := by
    intro hm
    rcases List.mem_append.mp hm with hx | hx <;>
      rcases (mem_guard3 _ _ _ _ _).mp hx with ⟨-, he⟩ | ⟨-, -, he⟩
    · exact absurd he (by decide)
    · exact absurd he (head_ne_of rfl rfl (by decide))
    · exact absurd he (by decide)
    · exact absurd he (head_ne_of rfl rfl (by decide))
  unfold validateSEOLists at h
  by_cases hk : p.keyword.isEmpty = true
  · rw [if_pos hk] at h
    cases h
    exact hmeta
  · rw [if_neg hk] at h
    by_cases hr : (!(regexSyntaxOk (lcStr p.keyword) 0)) = true
    · rw [if_pos hr] at h
      cases h
    · rw [if_neg hr] at h
      cases h
      exact hmeta

theorem faqError_not_in_seo (p : PostData) {sv : VRes}
    (h : validateSEO p = Except.ok sv) : faqError ∉ sv.errors := by
  unfold validateSEO at h
  split at h
  · cases h
  · rename_i ew heq
    cases h
    exact faqError_not_in_seoLists p heq

theorem faqError_not_in_image (img : Option ImageData) (resp : ImageResp) :
    faqError ∉ (validateImage img resp).errors := by
  rw [validateImage_errors_def]
  cases img with
  | none => simp [validateImageLists]
  | some i =>
    cases hu : i.url.isEmpty with
    | true => simp [validateImageLists, hu]
    | false =>
      cases resp with
      | ok status ct =>
        simp only [validateImageLists, hu]
        rw [if_neg (by simp)]
        intro hm
        rcases List.mem_append.mp hm with hx | hx <;> rw [mem_guard] at hx
        · exact absurd hx.2 (head_ne_of rfl rfl (by decide))
        · exact absurd hx.2 (head_ne_of rfl rfl (by decide))
      | err m =>
        simp only [validateImageLists, hu]
        rw [if_neg (by simp)]
        intro hm
        exact absurd (List.mem_singleton.mp hm) (head_ne_of rfl rfl (by decide))

theorem faqError_not_in_conclusion (c : Str) :
    faqError ∉ (validateConclusion c).errors := by
  rw [validateConclusion_errors_def]
  unfold validateConclusionLists
  cases h : (pMatches c).getLast? with
  | none =>
    show faqError ∉ [s2l "No paragraphs found in content"]
    decide
  | some lp =>
    intro hm
    rcases List.mem_append.mp hm with hx | hx <;> rw [mem_guard] at hx
    · exact absurd hx.2 (by decide)
    · exact absurd hx.2 (by decide)

/-- Where the FAQ error can come from: `validateContent`, exactly when the
content is non-empty, the template is the How-To/Playbook one, and no heading
passes the (any-level, substring) FAQ test. -/
theorem faqError_in_content_iff (c tpl : Str) :
    faqError ∈ (validateContent c tpl).errors ↔
      ((jsTrim c).isEmpty = false ∧ tpl = s2l "How-To / Playbook" ∧
        hasFAQHeading c = false) := by
  rw [validateContent_errors_def]
  unfold validateContentLists
  cases h : (jsTrim c).isEmpty
  · rw [if_neg Bool.false_ne_true]
    constructor
    · intro hm
      rcases List.mem_append.mp hm with hx | hx <;> rw [mem_guard] at hx
      · exact absurd hx.2 (head_ne_of rfl rfl (by decide))
      · refine ⟨rfl, ?_, ?_⟩
        · have := hx.1
          simp only [Bool.and_eq_true, decide_eq_true_eq] at this
          exact this.1
        · have := hx.1
          simp only [Bool.and_eq_true, Bool.not_eq_true', decide_eq_true_eq] at this
          exact this.2
    · rintro ⟨-, h2, h3⟩
      refine List.mem_append_right _ ?_
      rw [mem_guard]
      exact ⟨by simp [h2, h3], rfl⟩
  · rw [if_pos rfl]
    constructor
    · intro hm
      exact absurd (List.mem_singleton.mp hm) (by decide)
    · rintro ⟨hfalse, -, -⟩
      cases hfalse

/-- **C7** (corrected): the FAQ requirement is enforced only for the
`How-To / Playbook` template, and it is satisfied by *any* heading (any level
1–6) whose text contains "frequently asked questions" or "faq"
case-insensitively — not only by an H2 titled "Frequently Asked Questions".
When it fires, the overall result is invalid. -/
theorem validatePost_faq_requirement (p : PostData) (img : Option ImageData)
    (tpl : Str) (net : NetOracle) (r : ValidationResult)
    (h : validatePost p img tpl net = Except.ok r) :
    (faqError ∈ r.errors ↔
      ((jsTrim p.content).isEmpty = false ∧ tpl = s2l "How-To / Playbook" ∧
        hasFAQHeading p.content = false)) ∧
    (faqError ∈ r.errors → r.valid = false) := by
  unfold validatePost at h
  split at h
  · cases h
  · rename_i sv heq
    cases h
    have hcontent :
        (if (validateContent p.content tpl).valid then []
         else (validateContent p.content tpl).errors) =
          (validateContent p.content tpl).errors :=
      sub_valid_iff _ (validateContent_valid p.content tpl)
    constructor
    · constructor
      · intro hm
        rcases List.mem_append.mp hm with hx | hx
        rotate_left
        · exact absurd hx (not_mem_guarded _ (faqError_not_in_conclusion p.content))
        rcases List.mem_append.mp hx with hx | hx
        rotate_left
        · exact absurd hx (not_mem_guarded _ (faqError_not_in_image img net.imageResp))
        rcases List.mem_append.mp hx with hx | hx
        rotate_left
        · exact absurd hx (not_mem_guarded _ (faqError_not_in_seo p heq))
        rcases List.mem_append.mp hx with hx | hx
        rotate_left
        · exact absurd hx (not_mem_guarded _ (faqError_not_in_regional p.content))
        rcases List.mem_append.mp hx with hx | hx
        rotate_left
        · exact absurd hx (not_mem_guarded _ (faqError_not_in_voice p.content))
        rcases List.mem_append.mp hx with hx | hx
        · exact absurd hx (not_mem_guarded _ (faqError_not_in_title p.title))
        · rw [hcontent] at hx
          exact (faqError_in_content_iff p.content tpl).mp hx
      · intro hcond
        refine List.mem_append_left _ (List.mem_append_left _ (List.mem_append_left _
          (List.mem_append_left _ (List.mem_append_left _ (List.mem_append_right _ ?_)))))
        rw [hcontent]
        exact (faqError_in_content_iff p.content tpl).mpr hcond
    · intro hm
      have hne := List.ne_nil_of_mem hm
      show (_ : List Str).isEmpty = false
      exact List.isEmpty_eq_false.mpr hne

/-- Witness for C7 (amended): a concrete How-To post without any FAQ heading
is invalid with the FAQ error present. -/
theorem validatePost_faq_requirement_witness :
    (validatePost { witnessPost with content := s2l "<p>Some words here.</p>" } none
        (s2l "How-To / Playbook") witnessNet).isOk = true ∧
    (∀ r, validatePost
        { witnessPost with content := s2l "<p>Some words here.</p>" } none
        (s2l "How-To / Playbook") witnessNet = Except.ok r →
      faqError ∈ r.errors ∧ r.valid = false) := by
  refine ⟨by decide, ?_⟩
  intro r h
  have hmain := validatePost_faq_requirement _ none _ witnessNet r h
  have hcond : (jsTrim (s2l "<p>Some words here.</p>")).isEmpty = false ∧
      s2l "How-To / Playbook" = s2l "How-To / Playbook" ∧
      hasFAQHeading (s2l "<p>Some words here.</p>") = false := by
    refine ⟨by decide, rfl, by decide⟩
  have hmem := hmain.1.mpr hcond
  exact ⟨hmem, hmain.2 hmem⟩

/-- **C7 counterexample**: a How-To/Playbook post whose HTML contains *no* H2
heading "Frequently Asked Questions" (its only heading is an `<h3>FAQ</h3>`)
nevertheless passes the FAQ check — no FAQ error is produced, contradicting
the claim that the error fires whenever the H2 is absent. -/
theorem validateContent_h3_faq_counterexample :
    ((extractHeadings (s2l "<h3>FAQ</h3><p>x</p>")).filter
      (fun hd => hd.1 = 2)) = [] ∧
    faqError ∉
      (validateContent (s2l "<h3>FAQ</h3><p>x</p>") (s2l "How-To / Playbook")).errors := by
  constructor
  · decide
  · decide

/-! ## Claim C5: text-pipeline identity lemmas -/

theorem charOfNat_toNat (n : Nat) (h : n.isValidChar) : (Char.ofNat n).toNat = n := by
  unfold Char.ofNat
  rw [dif_pos h]
  rfl

theorem toLower_eq_lt {c : Char} (h : c.toLower = '<') : c = '<' := by
  simp only [Char.toLower] at h
  by_cases hr : c.toNat ≥ 65 ∧ c.toNat ≤ 90
  · rw [if_pos hr] at h
    have h2 := congrArg Char.toNat h
    rw [charOfNat_toNat _ (Or.inl (by omega))] at h2
    have h3 : ('<').toNat = 60 := by decide
    omega
  · rw [if_neg hr] at h
    exact h

theorem ciEq_lt_eq_false {c : Char} (h : ¬c = '<') : ciEq '<' c = false := by
  unfold ciEq
  simp only [decide_eq_false_iff_not]
  intro he
  exact h (toLower_eq_lt he.symm)

theorem brMatch?_none {s : Str} (h : ∀ c ∈ s, ¬c = '<') : brMatch? s = none := by
  cases s with
  | nil => rfl
  | cons c s' =>
    have hc := ciEq_lt_eq_false (h c (List.mem_cons_self c s'))
    simp [brMatch?, s2l, dropCiPrefix?, hc]

theorem brReplaceGo_succ (f : Nat) (s : Str) : brReplaceGo (f + 1) s =
    match brMatch? s with
    | some cont => '\n' :: brReplaceGo f cont
    | none =>
      match s with
      | [] => []
      | c :: s' => c :: brReplaceGo f s' := rfl

theorem brReplaceGo_id : ∀ (f : Nat) (s : Str), s.length < f →
    (∀ c ∈ s, ¬c = '<') → brReplaceGo f s = s := by
  intro f
  induction f with
  | zero => intro s hf; omega
  | succ f ih =>
    intro s hf h
    rw [brReplaceGo_succ, brMatch?_none h]
    cases s with
    | nil => rfl
    | cons c s' =>
      show c :: brReplaceGo f s' = c :: s'
      rw [ih s' (by simp only [List.length_cons] at hf; omega)
        (fun x hx => h x (List.mem_cons_of_mem c hx))]

theorem tagMatch?_none {s : Str} (h : ∀ c ∈ s, ¬c = '<') : tagMatch? s = none := by
  cases s with
  | nil => rfl
  | cons c s' =>
    have hc : ¬c = '<' := h c (List.mem_cons_self c s')
    unfold tagMatch?
    split
    · rename_i rest heq
      injection heq with h1 _
      exact absurd h1 hc
    · rfl

theorem stripTagsGo_succ (f : Nat) (s : Str) : stripTagsGo (f + 1) s =
    match tagMatch? s with
    | some cont => stripTagsGo f cont
    | none =>
      match s with
      | [] => []
      | c :: s' => c :: stripTagsGo f s' := rfl

theorem stripTagsGo_id : ∀ (f : Nat) (s : Str), s.length < f →
    (∀ c ∈ s, ¬c = '<') → stripTagsGo f s = s := by
  intro f
  induction f with
  | zero => intro s hf; omega
  | succ f ih =>
    intro s hf h
    rw [stripTagsGo_succ, tagMatch?_none h]
    cases s with
    | nil => rfl
    | cons c s' =>
      show c :: stripTagsGo f s' = c :: s'
      rw [ih s' (by simp only [List.length_cons] at hf; omega)
        (fun x hx => h x (List.mem_cons_of_mem c hx))]

theorem dropLitPrefix?_none {p : Char} {ps s : Str} (h : ∀ c ∈ s, ¬c = p) :
    dropLitPrefix? (p :: ps) s = none := by
  cases s with
  | nil => rfl
  | cons c s' =>
    simp only [dropLitPrefix?]
    rw [if_neg]
    intro he
    exact h c (List.mem_cons_self c s') he.symm

theorem replaceLitGo_succ (pat rep : Str) (f : Nat) (s : Str) :
    replaceLitGo pat rep (f + 1) s =
    match dropLitPrefix? pat s with
    | some rest =>
      if pat = [] then s
      else rep ++ replaceLitGo pat rep f rest
    | none =>
      match s with
      | [] => []
      | c :: s' => c :: replaceLitGo pat rep f s' := rfl

theorem replaceLitGo_id {p : Char} {ps rep : Str} : ∀ (f : Nat) (s : Str), s.length < f →
    (∀ c ∈ s, ¬c = p) → replaceLitGo (p :: ps) rep f s = s := by
  intro f
  induction f with
  | zero => intro s hf; omega
  | succ f ih =>
    intro s hf h
    rw [replaceLitGo_succ, dropLitPrefix?_none h]
    cases s with
    | nil => rfl
    | cons c s' =>
      show c :: replaceLitGo (p :: ps) rep f s' = c :: s'
      rw [ih s' (by simp only [List.length_cons] at hf; omega)
        (fun x hx => h x (List.mem_cons_of_mem c hx))]

theorem replaceLit_id {p : Char} {ps rep : Str} (s : Str) (h : ∀ c ∈ s, ¬c = p) :
    replaceLit (p :: ps) rep s = s :=
  replaceLitGo_id (s.length + 1) s (by omega) h

/-- On strings without `<` and `&`, `extractTextContent` is just `trim`. -/
theorem extractTextContent_eq_jsTrim (s : Str)
    (h1 : ∀ c ∈ s, ¬c = '<') (h2 : ∀ c ∈ s, ¬c = '&') :
    extractTextContent s = jsTrim s := by
  unfold extractTextContent
  have e1 : brReplace s = s := brReplaceGo_id (s.length + 1) s (by omega) h1
  rw [e1]
  have e2 : stripTags s = s := stripTagsGo_id (s.length + 1) s (by omega) h1
  rw [e2]
  unfold decodeEntities
  rw [show s2l "&nbsp;" = '&' :: s2l "nbsp;" from rfl, replaceLit_id s h2,
      show s2l "&amp;" = '&' :: s2l "amp;" from rfl, replaceLit_id s h2,
      show s2l "&lt;" = '&' :: s2l "lt;" from rfl, replaceLit_id s h2,
      show s2l "&gt;" = '&' :: s2l "gt;" from rfl, replaceLit_id s h2,
      show s2l "&quot;" = '&' :: s2l "quot;" from rfl, replaceLit_id s h2,
      show s2l "&#39;" = '&' :: s2l "#39;" from rfl, replaceLit_id s h2]

theorem len_dropWhile_le (p : Char → Bool) (l : Str) :
    (l.dropWhile p).length ≤ l.length :=
  (List.dropWhile_suffix p).length_le

theorem wsTokensGo_succ_cons (f : Nat) (c : Char) (s : Str) :
    wsTokensGo (f + 1) (c :: s) =
    if isWs c then wsTokensGo f s
    else (c :: s.takeWhile (fun x => !(isWs x))) ::
      wsTokensGo f (s.dropWhile (fun x => !(isWs x))) := rfl

theorem wsTokensGo_eq : ∀ (f : Nat) (s : Str), s.length < f → wsTokensGo f s = wsTokens s := by
  have main : ∀ (f g : Nat), g ≤ f → ∀ (s : Str), s.length < g →
      wsTokensGo g s = wsTokens s := by
    intro f
    induction f with
    | zero => intro g hg s hs; omega
    | succ f0 ih =>
      intro g hg s hs
      cases g with
      | zero => omega
      | succ g0 =>
        cases s with
        | nil => rfl
        | cons c s' =>
          have h1 : s'.length < g0 := by simp only [List.length_cons] at hs; omega
          have h2 : g0 ≤ f0 := by omega
          unfold wsTokens
          simp only [List.length_cons]
          rw [wsTokensGo_succ_cons, wsTokensGo_succ_cons]
          by_cases hc : isWs c = true
          · rw [if_pos hc, if_pos hc,
              ih g0 h2 s' h1, ih (s'.length + 1) (by omega) s' (by omega)]
          · rw [if_neg hc, if_neg hc]
            have hd : (s'.dropWhile (fun x => !(isWs x))).length ≤ s'.length :=
              len_dropWhile_le _ _
            rw [ih g0 h2 _ (by omega), ih (s'.length + 1) (by omega) _ (by omega)]
  intro f s h
  exact main f f (le_refl f) s h

theorem wsTokens_cons_ws {c : Char} (s : Str) (h : isWs c = true) :
    wsTokens (c :: s) = wsTokens s := by
  unfold wsTokens
  simp only [List.length_cons]
  rw [wsTokensGo_succ_cons, if_pos h]

theorem wsTokens_cons_not {c : Char} (s : Str) (h : isWs c = false) :
    wsTokens (c :: s) =
    (c :: s.takeWhile (fun x => !(isWs x))) ::
      wsTokens (s.dropWhile (fun x => !(isWs x))) := by
  unfold wsTokens
  simp only [List.length_cons]
  rw [wsTokensGo_succ_cons, if_neg (by rw [h]; exact Bool.false_ne_true)]
  have hd : (s.dropWhile (fun x => !(isWs x))).length ≤ s.length :=
    len_dropWhile_le _ _
  rw [wsTokensGo_eq (s.length + 1) _ (by omega)]
  rfl

theorem wsTokens_allws : ∀ (w : Str), (∀ c ∈ w, isWs c = true) → wsTokens w = [] := by
  intro w
  induction w with
  | nil => intro _; rfl
  | cons c s ih =>
    intro h
    rw [wsTokens_cons_ws s (h c (List.mem_cons_self c s))]
    exact ih (fun x hx => h x (List.mem_cons_of_mem c hx))

theorem takeWhile_append_allws (s w : Str) (hw : ∀ c ∈ w, isWs c = true) :
    (s ++ w).takeWhile (fun x => !(isWs x)) = s.takeWhile (fun x => !(isWs x)) := by
  induction s with
  | nil =>
    simp only [List.nil_append, List.takeWhile_nil]
    cases w with
    | nil => rfl
    | cons c w' =>
      have hc := hw c (List.mem_cons_self c w')
      simp [List.takeWhile_cons, hc]
  | cons a s' ih =>
    simp only [List.cons_append, List.takeWhile_cons]
    by_cases ha : (!(isWs a)) = true
    · rw [if_pos ha, if_pos ha, ih]
    · rw [if_neg ha, if_neg ha]

theorem dropWhile_append_allws (s w : Str) (hw : ∀ c ∈ w, isWs c = true) :
    (s ++ w).dropWhile (fun x => !(isWs x)) = s.dropWhile (fun x => !(isWs x)) ++ w := by
  induction s with
  | nil =>
    simp only [List.nil_append, List.dropWhile_nil]
    cases w with
    | nil => rfl
    | cons c w' =>
      have hc := hw c (List.mem_cons_self c w')
      simp [List.dropWhile_cons, hc]
  | cons a s' ih =>
    simp only [List.cons_append, List.dropWhile_cons]
    by_cases ha : (!(isWs a)) = true
    · rw [if_pos ha, if_pos ha]; exact ih
    · rw [if_neg ha, if_neg ha]
      rfl

theorem wsTokens_append_allws : ∀ (s w : Str), (∀ c ∈ w, isWs c = true) →
    wsTokens (s ++ w) = wsTokens s := by
  have main : ∀ (n : Nat) (s w : Str), s.length ≤ n → (∀ c ∈ w, isWs c = true) →
      wsTokens (s ++ w) = wsTokens s := by
    intro n
    induction n with
    | zero =>
      intro s w hs hw
      cases s with
      | nil => exact wsTokens_allws w hw
      | cons c s' => simp at hs
    | succ n ih =>
      intro s w hs hw
      cases s with
      | nil => exact wsTokens_allws w hw
      | cons c s' =>
        rw [List.cons_append]
        by_cases hc : isWs c = true
        · rw [wsTokens_cons_ws _ hc, wsTokens_cons_ws _ hc]
          exact ih s' w (by simp only [List.length_cons] at hs; omega) hw
        · have hc' : isWs c = false := by
            revert hc; cases isWs c <;> simp
          rw [wsTokens_cons_not _ hc', wsTokens_cons_not _ hc',
            takeWhile_append_allws s' w hw, dropWhile_append_allws s' w hw]
          rw [ih _ w (by
            have hd : (s'.dropWhile (fun x => !(isWs x))).length ≤ s'.length :=
              len_dropWhile_le _ _
            simp only [List.length_cons] at hs; omega) hw]
  intro s w hw
  exact main s.length s w (le_refl _) hw

theorem wsTokens_dropWhile_isWs : ∀ (s : Str), wsTokens (s.dropWhile isWs) = wsTokens s := by
  intro s
  induction s with
  | nil => rfl
  | cons c s' ih =>
    rw [List.dropWhile_cons]
    by_cases hc : isWs c = true
    · rw [if_pos hc, ih, wsTokens_cons_ws _ hc]
    · rw [if_neg hc]

theorem jsTrim_decomp (s : Str) :
    ∃ w : Str, s.dropWhile isWs = jsTrim s ++ w ∧ ∀ c ∈ w, isWs c = true := by
  refine ⟨((s.dropWhile isWs).reverse.takeWhile isWs).reverse, ?_, ?_⟩
  · conv_lhs => rw [← List.reverse_reverse (s.dropWhile isWs),
      ← List.takeWhile_append_dropWhile isWs (s.dropWhile isWs).reverse]
    rw [List.reverse_append]
    rfl
  · intro c hc
    exact List.mem_takeWhile_imp (List.mem_reverse.mp hc)

theorem wsTokens_jsTrim (s : Str) : wsTokens (jsTrim s) = wsTokens s := by
  obtain ⟨w, hw, hall⟩ := jsTrim_decomp s
  rw [← wsTokens_append_allws (jsTrim s) w hall, ← hw]
  exact wsTokens_dropWhile_isWs s

/-- `n` copies of the word `go` followed by a space: a content string with
exactly `n` words and no markup. -/
def wordsRep (n : Nat) : Str := (List.replicate n (s2l "go ")).flatten

theorem wordsRep_succ (n : Nat) : wordsRep (n + 1) = 'g' :: 'o' :: ' ' :: wordsRep n := rfl

theorem wordsRep_chars : ∀ (n : Nat), ∀ c ∈ wordsRep n, c = 'g' ∨ c = 'o' ∨ c = ' ' := by
  intro n
  induction n with
  | zero => intro c hc; cases hc
  | succ n ih =>
    intro c hc
    rw [wordsRep_succ] at hc
    rcases List.mem_cons.mp hc with h | hc
    · exact Or.inl h
    rcases List.mem_cons.mp hc with h | hc
    · exact Or.inr (Or.inl h)
    rcases List.mem_cons.mp hc with h | hc
    · exact Or.inr (Or.inr h)
    exact ih c hc

theorem wsTokens_wordsRep : ∀ (n : Nat),
    wsTokens (wordsRep n) = List.replicate n (s2l "go") := by
  intro n
  induction n with
  | zero => rfl
  | succ n ih =>
    rw [wordsRep_succ, wsTokens_cons_not _ (by decide), List.replicate_succ,
      List.takeWhile_cons, if_pos (by decide), List.takeWhile_cons, if_neg (by decide),
      List.dropWhile_cons, if_pos (by decide), List.dropWhile_cons, if_neg (by decide),
      wsTokens_cons_ws _ (by decide), ih]
    rfl

theorem countWords_wordsRep (n : Nat) : countWords (wordsRep n) = n := by
  unfold countWords
  have h1 : ∀ c ∈ wordsRep n, ¬c = '<' := by
    intro c hc
    rcases wordsRep_chars n c hc with h | h | h <;> simp [h]
  have h2 : ∀ c ∈ wordsRep n, ¬c = '&' := by
    intro c hc
    rcases wordsRep_chars n c hc with h | h | h <;> simp [h]
  rw [extractTextContent_eq_jsTrim _ h1 h2, wsTokens_jsTrim, wsTokens_wordsRep,
    List.length_replicate]

theorem jsTrim_wordsRep_isEmpty (n : Nat) (hn : 0 < n) :
    (jsTrim (wordsRep n)).isEmpty = false := by
  cases he : (jsTrim (wordsRep n)).isEmpty
  · rfl
  · exfalso
    have hnil : jsTrim (wordsRep n) = [] := by
      cases h : jsTrim (wordsRep n) with
      | nil => rfl
      | cons a l => rw [h] at he; simp [List.isEmpty] at he
    have hts := wsTokens_jsTrim (wordsRep n)
    rw [hnil, wsTokens_wordsRep] at hts
    have hz : wsTokens ([] : Str) = [] := rfl
    rw [hz] at hts
    have hl := congrArg List.length hts
    rw [List.length_replicate, List.length_nil] at hl
    omega

theorem validateContent_warnings_def (c tpl : Str) :
    (validateContent c tpl).warnings = (validateContentLists c tpl).2 := by
  with_reducible rfl

/-- On non-empty content the error list of `validateContent` is exactly the
word-count guard followed by the FAQ guard. -/
theorem validateContentLists_errors_split (c tpl : Str)
    (h : (jsTrim c).isEmpty = false) :
    (validateContentLists c tpl).1 =
      (if countWords c < 800 then
        [s2l "Content too short (" ++ natStr (countWords c) ++
          s2l " words, minimum 800)"]
       else []) ++
      (if (tpl = s2l "How-To / Playbook" && !(hasFAQHeading c)) = true then
        [faqError] else []) := by
  unfold validateContentLists
  rw [h, if_neg Bool.false_ne_true]

/-- **C5** (corrected): for non-empty content, a word count below the 800-word
minimum produces an error (and invalidates the result); but a word count above
the 1600-word maximum produces only the "quite long" *warning*: whenever the
count is at least 800 the only error `validateContent` can emit is the FAQ
error, so being over the maximum never yields an error. -/
theorem validateContent_wordCount_policy (c tpl : Str)
    (h : (jsTrim c).isEmpty = false) :
    (countWords c < 800 →
      (s2l "Content too short (" ++ natStr (countWords c) ++
        s2l " words, minimum 800)") ∈ (validateContent c tpl).errors ∧
      (validateContent c tpl).valid = false) ∧
    (800 ≤ countWords c → ∀ e ∈ (validateContent c tpl).errors, e = faqError) ∧
    (1600 < countWords c →
      (s2l "Content quite long (" ++ natStr (countWords c) ++
        s2l " words, target 800-1600)") ∈ (validateContent c tpl).warnings) := by
  refine ⟨?_, ?_, ?_⟩
  · intro hw
    have hmem : (s2l "Content too short (" ++ natStr (countWords c) ++
        s2l " words, minimum 800)") ∈ (validateContent c tpl).errors := by
      rw [validateContent_errors_def]
      unfold validateContentLists
      rw [h, if_neg Bool.false_ne_true]
      exact List.mem_append_left _ (by rw [mem_guard]; exact ⟨hw, rfl⟩)
    refine ⟨hmem, ?_⟩
    rw [validateContent_valid]
    cases hE : (validateContent c tpl).errors with
    | nil => rw [hE] at hmem; cases hmem
    | cons a l => rfl
  · intro hge e he
    rw [validateContent_errors_def] at he
    unfold validateContentLists at he
    rw [h, if_neg Bool.false_ne_true] at he
    rcases List.mem_append.mp he with hx | hx <;> rw [mem_guard] at hx
    · exact absurd hx.1 (by omega)
    · exact hx.2
  · intro hgt
    rw [validateContent_warnings_def]
    unfold validateContentLists
    rw [h, if_neg Bool.false_ne_true]
    apply List.mem_append_left
    apply List.mem_append_left
    apply List.mem_append_left
    apply List.mem_append_left
    apply List.mem_append_left
    apply List.mem_append_left
    apply List.mem_append_left
    apply List.mem_append_left
    rw [if_neg (by omega : ¬countWords c < 800), if_pos hgt]
    exact List.mem_singleton.mpr rfl

theorem validateContent_wordCount_policy_witness :
    (s2l "Content too short (" ++ natStr (countWords (wordsRep 3)) ++
      s2l " words, minimum 800)") ∈ (validateContent (wordsRep 3) (s2l "News")).errors ∧
    (validateContent (wordsRep 3) (s2l "News")).valid = false :=
  (validateContent_wordCount_policy (wordsRep 3) (s2l "News") (by decide)).1 (by decide)

/-- **C5 counterexample**: a 1601-word content (no markup) is over the
1600-word maximum, yet `validateContent` emits no error at all — the result is
valid and the over-maximum condition surfaces only as a warning, contradicting
the claim that a word count above the maximum "also produces an error". -/
theorem validateContent_over_max_no_error :
    1600 < countWords (wordsRep 1601) ∧
    (validateContent (wordsRep 1601) (s2l "News")).errors = [] ∧
    (validateContent (wordsRep 1601) (s2l "News")).valid = true ∧
    (s2l "Content quite long (" ++ natStr (countWords (wordsRep 1601)) ++
      s2l " words, target 800-1600)") ∈
        (validateContent (wordsRep 1601) (s2l "News")).warnings := by
  have hcw : countWords (wordsRep 1601) = 1601 := countWords_wordsRep 1601
  have hne : (jsTrim (wordsRep 1601)).isEmpty = false :=
    jsTrim_wordsRep_isEmpty 1601 (by omega)
  have herr : (validateContent (wordsRep 1601) (s2l "News")).errors = [] := by
    rw [validateContent_errors_def, validateContentLists_errors_split _ _ hne, hcw,
      if_neg (by decide : ¬(1601 : Nat) < 800),
      show decide (s2l "News" = s2l "How-To / Playbook") = false from by decide,
      Bool.false_and, if_neg Bool.false_ne_true]
    rfl
  refine ⟨by rw [hcw]; omega, herr, ?_, ?_⟩
  · rw [validateContent_valid, herr]
    rfl
  · rw [validateContent_warnings_def]
    unfold validateContentLists
    rw [hne, if_neg Bool.false_ne_true]
    apply List.mem_append_left
    apply List.mem_append_left
    apply List.mem_append_left
    apply List.mem_append_left
    apply List.mem_append_left
    apply List.mem_append_left
    apply List.mem_append_left
    apply List.mem_append_left
    rw [if_neg (by rw [hcw]; omega : ¬countWords (wordsRep 1601) < 800),
      if_pos (by rw [hcw]; omega : 1600 < countWords (wordsRep 1601))]
    exact List.mem_singleton.mpr rfl

/-! ## Claims C1 and C3: structure of the assembled block list -/

theorem assembleBlocks_cons (b : HBlock) (bs : List HBlock) (skip : Bool) :
    assembleBlocks (b :: bs) skip =
    match convertBlockToLexical b with
    | none => assembleBlocks bs skip
    | some n =>
      if b.type = s2l "h1" && !skip then assembleBlocks bs true
      else n :: assembleBlocks bs skip := rfl

theorem assembleBlocks_cons_none {b : HBlock} {bs : List HBlock} {skip : Bool}
    (hc : convertBlockToLexical b = none) :
    assembleBlocks (b :: bs) skip = assembleBlocks bs skip := by
  rw [assembleBlocks_cons, hc]

theorem assembleBlocks_cons_some_h1 {b : HBlock} {bs : List HBlock} {n : LexNode}
    (hc : convertBlockToLexical b = some n) (hb : b.type = s2l "h1") :
    assembleBlocks (b :: bs) false = assembleBlocks bs true := by
  rw [assembleBlocks_cons, hc, hb]
  show (if (decide (s2l "h1" = s2l "h1") && !false) = true then assembleBlocks bs true
      else n :: assembleBlocks bs false) = assembleBlocks bs true
  rw [if_pos (by decide)]

theorem assembleBlocks_cons_some_keep {b : HBlock} {bs : List HBlock} {n : LexNode}
    {skip : Bool} (hc : convertBlockToLexical b = some n)
    (hcond : (b.type = s2l "h1" && !skip) = false) :
    assembleBlocks (b :: bs) skip = n :: assembleBlocks bs skip := by
  rw [assembleBlocks_cons, hc, hcond]
  show (if false = true then assembleBlocks bs true else n :: assembleBlocks bs skip) =
    n :: assembleBlocks bs skip
  rw [if_neg Bool.false_ne_true]

theorem assembleBlocks_true_eq : ∀ (bs : List HBlock),
    assembleBlocks bs true = bs.filterMap convertBlockToLexical := by
  intro bs
  induction bs with
  | nil => rfl
  | cons b bs ih =>
    cases hc : convertBlockToLexical b with
    | none => rw [assembleBlocks_cons_none hc, ih]; simp [List.filterMap_cons, hc]
    | some n =>
      rw [assembleBlocks_cons_some_keep hc (by rw [Bool.not_true, Bool.and_false]), ih]
      simp [List.filterMap_cons, hc]

theorem assembleBlocks_append_pre : ∀ (pre rest : List HBlock),
    (∀ x ∈ pre, ¬(x.type = s2l "h1" ∧ (convertBlockToLexical x).isSome = true)) →
    assembleBlocks (pre ++ rest) false =
      pre.filterMap convertBlockToLexical ++ assembleBlocks rest false := by
  intro pre
  induction pre with
  | nil => intro rest _; rfl
  | cons x pre ih =>
    intro rest hpre
    rw [List.cons_append]
    cases hc : convertBlockToLexical x with
    | none =>
      rw [assembleBlocks_cons_none hc,
        ih rest (fun y hy => hpre y (List.mem_cons_of_mem x hy))]
      simp [List.filterMap_cons, hc]
    | some n =>
      have hx : ¬x.type = s2l "h1" := by
        intro hh
        exact hpre x (List.mem_cons_self x pre) ⟨hh, by rw [hc]; rfl⟩
      rw [assembleBlocks_cons_some_keep hc (by rw [decide_eq_false hx, Bool.false_and]),
        ih rest (fun y hy => hpre y (List.mem_cons_of_mem x hy))]
      simp [List.filterMap_cons, hc]

/-- **C1** (corrected): in the embedding `htmlToLexical` is total (no failure
path is reachable, so the catch-all fallback paragraph never fires), but the
children sequence *can* be empty: it is empty exactly when either no block
converts, or the only convertible block is a single H1 (which is dropped). -/
theorem htmlToLexical_empty_iff (html : Str) :
    htmlToLexical html = [] ↔
      ((parseHTMLBlocks html).filter
          (fun b => (convertBlockToLexical b).isSome)) = [] ∨
      ∃ b, ((parseHTMLBlocks html).filter
          (fun b => (convertBlockToLexical b).isSome)) = [b] ∧
        b.type = s2l "h1" := by
  unfold htmlToLexical
  generalize parseHTMLBlocks html = bs
  induction bs with
  | nil =>
    constructor
    · intro _; exact Or.inl rfl
    · intro _; rfl
  | cons x bs ih =>
    cases hc : convertBlockToLexical x with
    | none =>
      rw [assembleBlocks_cons_none hc,
        List.filter_cons_of_neg (by rw [hc]; exact Bool.false_ne_true)]
      exact ih
    | some n =>
      have hfilter : (x :: bs).filter (fun b => (convertBlockToLexical b).isSome) =
          x :: bs.filter (fun b => (convertBlockToLexical b).isSome) :=
        List.filter_cons_of_pos (by rw [hc]; rfl)
      by_cases hx : x.type = s2l "h1"
      · rw [assembleBlocks_cons_some_h1 hc hx, assembleBlocks_true_eq, hfilter]
        constructor
        · intro hnil
          right
          refine ⟨x, ?_, hx⟩
          have hfb : bs.filter (fun b => (convertBlockToLexical b).isSome) = [] := by
            rw [List.filter_eq_nil_iff]
            intro a ha hsome
            rw [List.filterMap_eq_nil_iff.mp hnil a ha] at hsome
            exact absurd hsome (by decide)
          rw [hfb]
        · rintro (habs | ⟨b, hb, -⟩)
          · exact absurd habs (List.cons_ne_nil _ _)
          · injection hb with h1 h2
            rw [List.filterMap_eq_nil_iff]
            intro a ha
            have := List.filter_eq_nil_iff.mp h2 a ha
            exact Option.not_isSome_iff_eq_none.mp (by
              intro hs
              exact this hs)
      · rw [assembleBlocks_cons_some_keep hc (by rw [decide_eq_false hx, Bool.false_and]),
          hfilter]
        constructor
        · intro habs
          exact absurd habs (List.cons_ne_nil _ _)
        · rintro (habs | ⟨b, hb, hbh1⟩)
          · exact absurd habs (List.cons_ne_nil _ _)
          · injection hb with h1 h2
            rw [← h1] at hbh1
            exact absurd hbh1 hx

/-- **C1 counterexample**: on the empty input (which the spec says should
still yield a non-empty children sequence, worst case one fallback paragraph)
the conversion returns an empty children list and no fallback node. -/
theorem htmlToLexical_empty_input : htmlToLexical (s2l "") = [] := rfl

/-- **C3** (corrected): the block dropped by the conversion is the first
*convertible* H1 — the first H1 whose text content is non-empty — wherever it
occurs; every block before it and every block after it (including later H1s)
is converted normally. An H1 whose conversion fails (empty text) does not
consume the drop. -/
theorem htmlToLexical_drops_first_convertible_h1 (html : Str)
    (pre post : List HBlock) (b : HBlock)
    (hsplit : parseHTMLBlocks html = pre ++ b :: post)
    (hb : b.type = s2l "h1") (hc : (convertBlockToLexical b).isSome = true)
    (hpre : ∀ x ∈ pre, ¬(x.type = s2l "h1" ∧ (convertBlockToLexical x).isSome = true)) :
    htmlToLexical html =
      pre.filterMap convertBlockToLexical ++ post.filterMap convertBlockToLexical := by
  unfold htmlToLexical
  rw [hsplit, assembleBlocks_append_pre pre (b :: post) hpre]
  obtain ⟨n, hn⟩ := Option.isSome_iff_exists.mp hc
  rw [assembleBlocks_cons_some_h1 hn hb, assembleBlocks_true_eq]

theorem htmlToLexical_drops_first_convertible_h1_witness :
    htmlToLexical (s2l "<h1>T</h1><h1>U</h1>") =
      List.filterMap convertBlockToLexical [] ++
        List.filterMap convertBlockToLexical [⟨s2l "h1", s2l "U"⟩] :=
  htmlToLexical_drops_first_convertible_h1 (s2l "<h1>T</h1><h1>U</h1>")
    [] [⟨s2l "h1", s2l "U"⟩] ⟨s2l "h1", s2l "T"⟩
    (by decide) (by decide) (by decide)
    (by intro x hx; cases hx)

/-- **C3 counterexample**: an input with exactly two H1 elements where the
first H1 is empty.  The empty H1 fails to convert, so it does not consume the
"skip first H1" step; the second H1 — the first convertible one — is dropped
instead, and the output is empty rather than containing the second H1 as a
heading node. -/
theorem htmlToLexical_two_h1_empty_first :
    htmlToLexical (s2l "<h1></h1><h1>Real</h1>") = [] := by decide

/-! ## Claim C4: round trip on simple generated documents

The generator (spec side) emits documents as concatenations of
`<tag>text</tag>` blocks whose text contains no `<` and no `&` and is
non-empty after trimming. -/

/-- Generator tags. -/
inductive GTag
  | h1 | h2 | p
deriving DecidableEq, Repr

def gTagStr : GTag → Str
  | .h1 => s2l "h1"
  | .h2 => s2l "h2"
  | .p => s2l "p"

def gOpenStr (t : GTag) : Str := '<' :: (gTagStr t ++ ['>'])

def gCloseStr (t : GTag) : Str := '<' :: '/' :: (gTagStr t ++ ['>'])

/-- Render a simple document to HTML. -/
def renderDoc : List (GTag × Str) → Str
  | [] => []
  | (t, txt) :: rest => gOpenStr t ++ (txt ++ (gCloseStr t ++ renderDoc rest))

/-- The node the spec expects for one simple block: a heading or paragraph
holding a single plain-text inline node with the trimmed source text. -/
def gNode : GTag → Str → LexNode
  | .h1, txt => .heading (s2l "h1") [.text (jsTrim txt) false]
  | .h2, txt => .heading (s2l "h2") [.text (jsTrim txt) false]
  | .p, txt => .paragraph [.text (jsTrim txt) false]

/-- The node sequence the spec expects: one node per block, in order, except
that the first H1 (tracked by the flag) is dropped. -/
def expectedNodes : List (GTag × Str) → Bool → List LexNode
  | [], _ => []
  | (t, txt) :: rest, seenH1 =>
    if t = GTag.h1 && !seenH1 then expectedNodes rest true
    else gNode t txt :: expectedNodes rest seenH1

/-- Well-formedness of one generated block. -/
def blockWF (b : GTag × Str) : Prop :=
  (∀ c ∈ b.2, ¬c = '<' ∧ ¬c = '&') ∧ (jsTrim b.2).isEmpty = false

instance blockWF_dec (b : GTag × Str) : Decidable (blockWF b) := by
  unfold blockWF
  infer_instance

theorem renderDoc_cons (t : GTag) (txt : Str) (rest : List (GTag × Str)) :
    renderDoc ((t, txt) :: rest) =
      gOpenStr t ++ (txt ++ (gCloseStr t ++ renderDoc rest)) := rfl

theorem expectedNodes_cons (t : GTag) (txt : Str) (rest : List (GTag × Str))
    (skip : Bool) :
    expectedNodes ((t, txt) :: rest) skip =
    if (t = GTag.h1 && !skip) = true then expectedNodes rest true
    else gNode t txt :: expectedNodes rest skip := rfl

theorem ciEq_refl (c : Char) : ciEq c c = true := by
  unfold ciEq
  simp

theorem dropCiPrefix?_self : ∀ (pat rest : Str),
    dropCiPrefix? pat (pat ++ rest) = some rest := by
  intro pat
  induction pat with
  | nil => intro rest; rfl
  | cons p ps ih =>
    intro rest
    simp only [List.cons_append, dropCiPrefix?, ciEq_refl, if_pos]
    exact ih rest

theorem takeWhile_all {α : Type} {p : α → Bool} :
    ∀ (l : List α), (∀ c ∈ l, p c = true) → l.takeWhile p = l := by
  intro l
  induction l with
  | nil => intro _; rfl
  | cons a l ih =>
    intro h
    rw [List.takeWhile_cons, if_pos (h a (List.mem_cons_self a l)),
      ih (fun x hx => h x (List.mem_cons_of_mem a hx))]

theorem dropWhile_all {α : Type} {p : α → Bool} :
    ∀ (l : List α), (∀ c ∈ l, p c = true) → l.dropWhile p = [] := by
  intro l
  induction l with
  | nil => intro _; rfl
  | cons a l ih =>
    intro h
    rw [List.dropWhile_cons, if_pos (h a (List.mem_cons_self a l))]
    exact ih (fun x hx => h x (List.mem_cons_of_mem a hx))

theorem strongMatch?_none {s : Str} (h : ∀ c ∈ s, ¬c = '<') :
    strongMatch? s = none := by
  cases s with
  | nil => rfl
  | cons c s' =>
    have hc := ciEq_lt_eq_false (h c (List.mem_cons_self c s'))
    simp [strongMatch?, s2l, dropCiPrefix?, hc]

theorem aMatch?_none {s : Str} (h : ∀ c ∈ s, ¬c = '<') : aMatch? s = none := by
  cases s with
  | nil => rfl
  | cons c s' =>
    have hc := ciEq_lt_eq_false (h c (List.mem_cons_self c s'))
    simp [aMatch?, s2l, dropCiPrefix?, hc]

theorem splitAtFirstCi_cons (pat : Str) (c : Char) (s : Str) :
    splitAtFirstCi pat (c :: s) =
    match dropCiPrefix? pat (c :: s) with
    | some rest => some ([], rest)
    | none => (splitAtFirstCi pat s).map (fun p => (c :: p.1, p.2)) := rfl

theorem splitAtFirstCi_through {ps : Str} :
    ∀ (txt tail : Str) {r : Str}, (∀ c ∈ txt, ¬c = '<') →
    dropCiPrefix? ('<' :: ps) tail = some r →
    splitAtFirstCi ('<' :: ps) (txt ++ tail) = some (txt, r) := by
  intro txt
  induction txt with
  | nil =>
    intro tail r _ hm
    cases tail with
    | nil => cases hm
    | cons c t' =>
      rw [List.nil_append, splitAtFirstCi_cons, hm]
  | cons c txt' ih =>
    intro tail r h hm
    rw [List.cons_append, splitAtFirstCi_cons]
    have hfail : dropCiPrefix? ('<' :: ps) (c :: (txt' ++ tail)) = none := by
      have hc := ciEq_lt_eq_false (h c (List.mem_cons_self c txt'))
      simp [dropCiPrefix?, hc]
    rw [hfail, ih tail (fun x hx => h x (List.mem_cons_of_mem c hx)) hm]
    rfl

theorem tagCandidates_cons (c d : Char) (s : Str) :
    tagCandidates (c :: d :: s) =
    (if ciEq c 'h' && ('1' ≤ d && d ≤ '6') then [['h', d]] else []) ++
      [s2l "p", s2l "ul", s2l "ol", s2l "blockquote", s2l "pre"] := rfl

theorem tryTags_cons (t : Str) (ts : List Str) (s1 : Str) :
    tryTags (t :: ts) s1 =
    match tryTag t s1 with
    | some (c, rest) => some (t, c, rest)
    | none => tryTags ts s1 := rfl

theorem tryTag_render (tg txt rest : Str) (h : ∀ c ∈ txt, ¬c = '<') :
    tryTag tg (tg ++ '>' :: (txt ++ ('<' :: '/' :: tg ++ '>' :: rest))) =
      some (txt, rest) := by
  unfold tryTag
  rw [dropCiPrefix?_self, Option.some_bind, List.dropWhile_cons, if_neg (by decide)]
  show splitAtFirstCi ('<' :: '/' :: tg ++ ['>'])
      (txt ++ ('<' :: '/' :: tg ++ '>' :: rest)) = some (txt, rest)
  refine splitAtFirstCi_through txt _ h ?_
  have e : ('<' :: '/' :: tg ++ ['>']) ++ rest = '<' :: '/' :: tg ++ '>' :: rest := by
    simp
  rw [← e]
  exact dropCiPrefix?_self _ rest

theorem matchBlockAt_cons_lt (s1 : Str) :
    matchBlockAt ('<' :: s1) = tryTags (tagCandidates s1) s1 := rfl

theorem matchBlockAt_render (t : GTag) (txt rest : Str) (h : ∀ c ∈ txt, ¬c = '<') :
    matchBlockAt (gOpenStr t ++ (txt ++ (gCloseStr t ++ rest))) =
      some (gTagStr t, txt, rest) := by
  have harg : gOpenStr t ++ (txt ++ (gCloseStr t ++ rest)) =
      '<' :: (gTagStr t ++ '>' :: (txt ++ ('<' :: '/' :: gTagStr t ++ '>' :: rest))) := by
    simp [gOpenStr, gCloseStr]
  rw [harg, matchBlockAt_cons_lt]
  have htag := tryTag_render (gTagStr t) txt rest h
  cases t
  case h1 =>
    rw [show tagCandidates (gTagStr GTag.h1 ++ '>' ::
        (txt ++ ('<' :: '/' :: gTagStr GTag.h1 ++ '>' :: rest))) =
      gTagStr GTag.h1 :: [s2l "p", s2l "ul", s2l "ol", s2l "blockquote", s2l "pre"] from by
        rw [show gTagStr GTag.h1 ++ '>' ::
            (txt ++ ('<' :: '/' :: gTagStr GTag.h1 ++ '>' :: rest)) =
          'h' :: '1' :: ('>' :: (txt ++ ('<' :: '/' :: gTagStr GTag.h1 ++ '>' :: rest)))
          from rfl]
        rw [tagCandidates_cons, if_pos (by decide)]
        rfl]
    rw [tryTags_cons, htag]
  case h2 =>
    rw [show tagCandidates (gTagStr GTag.h2 ++ '>' ::
        (txt ++ ('<' :: '/' :: gTagStr GTag.h2 ++ '>' :: rest))) =
      gTagStr GTag.h2 :: [s2l "p", s2l "ul", s2l "ol", s2l "blockquote", s2l "pre"] from by
        rw [show gTagStr GTag.h2 ++ '>' ::
            (txt ++ ('<' :: '/' :: gTagStr GTag.h2 ++ '>' :: rest)) =
          'h' :: '2' :: ('>' :: (txt ++ ('<' :: '/' :: gTagStr GTag.h2 ++ '>' :: rest)))
          from rfl]
        rw [tagCandidates_cons, if_pos (by decide)]
        rfl]
    rw [tryTags_cons, htag]
  case p =>
    rw [show tagCandidates (gTagStr GTag.p ++ '>' ::
        (txt ++ ('<' :: '/' :: gTagStr GTag.p ++ '>' :: rest))) =
      gTagStr GTag.p :: [s2l "ul", s2l "ol", s2l "blockquote", s2l "pre"] from by
        rw [show gTagStr GTag.p ++ '>' ::
            (txt ++ ('<' :: '/' :: gTagStr GTag.p ++ '>' :: rest)) =
          'p' :: '>' :: (txt ++ ('<' :: '/' :: gTagStr GTag.p ++ '>' :: rest))
          from rfl]
        rw [tagCandidates_cons, if_neg (by decide)]
        rfl]
    rw [tryTags_cons, htag]

theorem parseHTMLBlocksGo_succ (f : Nat) (s : Str) :
    parseHTMLBlocksGo (f + 1) s =
    match matchBlockAt s with
    | some (t, c, rest) => ⟨t, c⟩ :: parseHTMLBlocksGo f rest
    | none =>
      match s with
      | [] => []
      | _ :: s' => parseHTMLBlocksGo f s' := rfl

theorem parseHTMLBlocksGo_eq : ∀ (f : Nat) (s : Str), s.length < f →
    parseHTMLBlocksGo f s = parseHTMLBlocks s := by
  have main : ∀ (f g : Nat), g ≤ f → ∀ (s : Str), s.length < g →
      parseHTMLBlocksGo g s = parseHTMLBlocks s := by
    intro f
    induction f with
    | zero => intro g hg s hs; omega
    | succ f0 ih =>
      intro g hg s hs
      cases g with
      | zero => omega
      | succ g0 =>
        unfold parseHTMLBlocks
        rw [parseHTMLBlocksGo_succ, parseHTMLBlocksGo_succ]
        cases hm : matchBlockAt s with
        | some tcr =>
          obtain ⟨t, c, rest⟩ := tcr
          have hlen := matchBlockAt_length hm
          show HBlock.mk t c :: parseHTMLBlocksGo g0 rest =
            HBlock.mk t c :: parseHTMLBlocksGo s.length rest
          rw [ih g0 (by omega) rest (by omega), ih s.length (by omega) rest (by omega)]
        | none =>
          cases s with
          | nil => rfl
          | cons a s' =>
            show parseHTMLBlocksGo g0 s' = parseHTMLBlocksGo (a :: s').length s'
            have hl : (a :: s').length = s'.length + 1 := rfl
            rw [hl, ih g0 (by omega) s' (by simp only [List.length_cons] at hs; omega),
              ih (s'.length + 1) (by simp only [List.length_cons] at hs; omega) s' (by omega)]
  intro f s h
  exact main f f (le_refl f) s h

theorem parseHTMLBlocks_render : ∀ (doc : List (GTag × Str)),
    (∀ b ∈ doc, ∀ c ∈ b.2, ¬c = '<') →
    parseHTMLBlocks (renderDoc doc) =
      doc.map (fun b => HBlock.mk (gTagStr b.1) b.2) := by
  intro doc
  induction doc with
  | nil => intro _; rfl
  | cons b doc ih =>
    intro h
    obtain ⟨t, txt⟩ := b
    unfold parseHTMLBlocks
    rw [renderDoc_cons, parseHTMLBlocksGo_succ,
      matchBlockAt_render t txt (renderDoc doc) (h (t, txt) (List.mem_cons_self _ _))]
    show HBlock.mk (gTagStr t) txt :: parseHTMLBlocksGo
        ((gOpenStr t ++ (txt ++ (gCloseStr t ++ renderDoc doc))).length) (renderDoc doc) = _
    rw [parseHTMLBlocksGo_eq _ _ (by
        simp only [List.length_append, gOpenStr, gCloseStr, List.length_cons]
        omega),
      ih (fun y hy => h y (List.mem_cons_of_mem _ hy)), List.map_cons]

theorem inlineScanGo_nil (f : Nat) : inlineScanGo f [] = [] := by
  cases f with
  | zero => rfl
  | succ f => rfl

theorem inlineScanGo_succ (f : Nat) (s : Str) :
    inlineScanGo (f + 1) s =
    match strongMatch? s with
    | some (content, rest) =>
      let boldText := extractTextContent content
      (if boldText.isEmpty then id else (InlineNode.text boldText true :: ·))
        (inlineScanGo f rest)
    | none =>
      match aMatch? s with
      | some (url, content, rest) =>
        let linkText := extractTextContent content
        (if !content.isEmpty && !linkText.isEmpty then (InlineNode.link url linkText :: ·)
         else id) (inlineScanGo f rest)
      | none =>
        match s with
        | [] => []
        | c :: s' =>
          if c = '<' then inlineScanGo f s'
          else
            let run := (c :: s').takeWhile (fun x => !(x = '<'))
            let plainText := jsTrim run
            (if plainText.isEmpty then id else (InlineNode.text plainText false :: ·))
              (inlineScanGo f ((c :: s').dropWhile (fun x => !(x = '<')))) := rfl

theorem inlineScan_plain (c : Char) (s' : Str) (h : ∀ x ∈ (c :: s'), ¬x = '<') :
    inlineScan (c :: s') =
      if (jsTrim (c :: s')).isEmpty then []
      else [InlineNode.text (jsTrim (c :: s')) false] := by
  unfold inlineScan
  simp only [List.length_cons]
  rw [inlineScanGo_succ, strongMatch?_none h, aMatch?_none h]
  have hc : ¬c = '<' := h c (List.mem_cons_self c s')
  show (if c = '<' then inlineScanGo (s'.length + 1) s'
    else
      (if (jsTrim ((c :: s').takeWhile (fun x => !(x = '<')))).isEmpty then id
       else (InlineNode.text (jsTrim ((c :: s').takeWhile (fun x => !(x = '<')))) false :: ·))
        (inlineScanGo (s'.length + 1) ((c :: s').dropWhile (fun x => !(x = '<'))))) =
    if (jsTrim (c :: s')).isEmpty then []
    else [InlineNode.text (jsTrim (c :: s')) false]
  rw [if_neg hc,
    takeWhile_all (c :: s') (fun x hx => by simp [h x hx]),
    dropWhile_all (c :: s') (fun x hx => by simp [h x hx]),
    inlineScanGo_nil]
  by_cases hE : (jsTrim (c :: s')).isEmpty = true
  · rw [if_pos hE, if_pos hE]
    rfl
  · rw [if_neg hE, if_neg hE]

theorem parseInlineContent_plain (txt : Str) (h : ∀ c ∈ txt, ¬c = '<')
    (hne : (jsTrim txt).isEmpty = false) :
    parseInlineContent txt = [InlineNode.text (jsTrim txt) false] := by
  cases htx : txt with
  | nil => rw [htx] at hne; exact absurd hne (by decide)
  | cons c s' =>
    rw [htx] at h hne
    have hscan : inlineScan (c :: s') = [InlineNode.text (jsTrim (c :: s')) false] := by
      rw [inlineScan_plain c s' h, if_neg (by rw [hne]; exact Bool.false_ne_true)]
    unfold parseInlineContent
    rw [hscan]
    rfl

theorem convertBlock_render (t : GTag) (txt : Str)
    (h1 : ∀ c ∈ txt, ¬c = '<') (h2 : ∀ c ∈ txt, ¬c = '&')
    (hne : (jsTrim txt).isEmpty = false) :
    convertBlockToLexical (HBlock.mk (gTagStr t) txt) = some (gNode t txt) := by
  have hext : extractTextContent txt = jsTrim txt := extractTextContent_eq_jsTrim txt h1 h2
  have hpic : parseInlineContent txt = [InlineNode.text (jsTrim txt) false] :=
    parseInlineContent_plain txt h1 hne
  cases t
  case h1 =>
    simp only [convertBlockToLexical]
    rw [if_pos (by rfl : (HBlock.mk (gTagStr GTag.h1) txt).type.head? = some 'h')]
    show (if (extractTextContent txt).isEmpty then none
      else some (LexNode.heading (gTagStr GTag.h1) (parseInlineContent txt))) = _
    rw [hext, hne, if_neg Bool.false_ne_true, hpic]
    rfl
  case h2 =>
    simp only [convertBlockToLexical]
    rw [if_pos (by rfl : (HBlock.mk (gTagStr GTag.h2) txt).type.head? = some 'h')]
    show (if (extractTextContent txt).isEmpty then none
      else some (LexNode.heading (gTagStr GTag.h2) (parseInlineContent txt))) = _
    rw [hext, hne, if_neg Bool.false_ne_true, hpic]
    rfl
  case p =>
    simp only [convertBlockToLexical]
    rw [if_neg (by
        rw [show (HBlock.mk (gTagStr GTag.p) txt).type.head? = some 'p' from rfl]
        decide),
      if_pos (by rfl : (HBlock.mk (gTagStr GTag.p) txt).type = s2l "p")]
    show (if (extractTextContent txt).isEmpty then none
      else some (LexNode.paragraph (parseInlineContent txt))) = _
    rw [hext, hne, if_neg Bool.false_ne_true, hpic]
    rfl

theorem assembleBlocks_map_expected : ∀ (doc : List (GTag × Str)) (skip : Bool),
    (∀ b ∈ doc, blockWF b) →
    assembleBlocks (doc.map (fun b => HBlock.mk (gTagStr b.1) b.2)) skip =
      expectedNodes doc skip := by
  intro doc
  induction doc with
  | nil => intro skip _; rfl
  | cons b doc ih =>
    intro skip h
    obtain ⟨t, txt⟩ := b
    obtain ⟨hchars, hne⟩ := h (t, txt) (List.mem_cons_self _ _)
    have h1 : ∀ c ∈ txt, ¬c = '<' := fun c hc => (hchars c hc).1
    have h2 : ∀ c ∈ txt, ¬c = '&' := fun c hc => (hchars c hc).2
    have hcv := convertBlock_render t txt h1 h2 hne
    have hrest : ∀ y ∈ doc, blockWF y := fun y hy => h y (List.mem_cons_of_mem _ hy)
    rw [List.map_cons]
    cases t with
    | h1 =>
      cases skip with
      | false =>
        rw [assembleBlocks_cons_some_h1 hcv rfl, ih true hrest,
          expectedNodes_cons, if_pos (by decide)]
      | true =>
        rw [assembleBlocks_cons_some_keep hcv (by rw [Bool.not_true, Bool.and_false]),
          ih true hrest, expectedNodes_cons, if_neg (by decide)]
    | h2 =>
      rw [assembleBlocks_cons_some_keep hcv (by
          rw [show (HBlock.mk (gTagStr GTag.h2) txt).type = s2l "h2" from rfl,
            show decide (s2l "h2" = s2l "h1") = false from by decide, Bool.false_and]),
        ih skip hrest, expectedNodes_cons, if_neg (by simp)]
    | p =>
      rw [assembleBlocks_cons_some_keep hcv (by
          rw [show (HBlock.mk (gTagStr GTag.p) txt).type = s2l "p" from rfl,
            show decide (s2l "p" = s2l "h1") = false from by decide, Bool.false_and]),
        ih skip hrest, expectedNodes_cons, if_neg (by simp)]

theorem expectedNodes_ne : ∀ (doc : List (GTag × Str)) (skip : Bool),
    (∃ b ∈ doc, b.1 = GTag.p) → expectedNodes doc skip ≠ [] := by
  intro doc
  induction doc with
  | nil =>
    intro skip hex
    obtain ⟨b, hb, -⟩ := hex
    cases hb
  | cons b doc ih =>
    intro skip hex
    obtain ⟨t, txt⟩ := b
    rw [expectedNodes_cons]
    by_cases hcond : (t = GTag.h1 && !skip) = true
    · rw [if_pos hcond]
      apply ih true
      obtain ⟨b2, hb2, hp⟩ := hex
      rcases List.mem_cons.mp hb2 with he | hm
      · exfalso
        rw [Bool.and_eq_true, decide_eq_true_iff] at hcond
        rw [he] at hp
        rw [hcond.1] at hp
        cases hp
      · exact ⟨b2, hm, hp⟩
    · rw [if_neg hcond]
      exact List.cons_ne_nil _ _

/-- **C4** (corrected): on well-formed simple documents — concatenations of
`<h1>/<h2>/<p>` blocks whose text contains no `<` or `&` and is non-empty
after trimming — the conversion is a faithful round trip: it yields exactly
one node per block (a heading or paragraph holding a single plain-text inline
node with the trimmed source text), except that the first H1 is dropped; in
particular the output is non-empty whenever the document contains a
paragraph.  (The original universal "no tag fragments leak" reading is false
for unknown inline tags, see the counterexample.) -/
theorem htmlToLexical_simple_roundtrip (doc : List (GTag × Str))
    (hwf : ∀ b ∈ doc, blockWF b) :
    htmlToLexical (renderDoc doc) = expectedNodes doc false ∧
    ((∃ b ∈ doc, b.1 = GTag.p) → htmlToLexical (renderDoc doc) ≠ []) := by
  have hmain : htmlToLexical (renderDoc doc) = expectedNodes doc false := by
    unfold htmlToLexical
    rw [parseHTMLBlocks_render doc (fun b hb c hc => ((hwf b hb).1 c hc).1),
      assembleBlocks_map_expected doc false hwf]
  exact ⟨hmain, fun hex => by rw [hmain]; exact expectedNodes_ne doc false hex⟩

theorem htmlToLexical_simple_roundtrip_witness :
    htmlToLexical (renderDoc [(GTag.h1, s2l "Title"), (GTag.p, s2l "Hello world")]) =
      expectedNodes [(GTag.h1, s2l "Title"), (GTag.p, s2l "Hello world")] false ∧
    ((∃ b ∈ [(GTag.h1, s2l "Title"), (GTag.p, s2l "Hello world")], b.1 = GTag.p) →
      htmlToLexical (renderDoc [(GTag.h1, s2l "Title"), (GTag.p, s2l "Hello world")]) ≠ []) :=
  htmlToLexical_simple_roundtrip [(GTag.h1, s2l "Title"), (GTag.p, s2l "Hello world")]
    (by decide)

/-- **C4 counterexample**: an inline tag the converter does not know
(`<em>`) makes the scanner leak tag fragments into emitted plain `Text`
nodes: the angle bracket `>` and the tag name `em` appear in the node text,
refuting the universal no-leak reading of the claim. -/
theorem htmlToLexical_inline_tag_leak :
    htmlToLexical (s2l "<p>a <em>x</em> b</p>") =
      [LexNode.paragraph [InlineNode.text (s2l "a") false,
        InlineNode.text (s2l "em>x") false,
        InlineNode.text (s2l "/em> b") false]] ∧
    '>' ∈ s2l "em>x" := by decide

end IgnitionAutomation
